import Mathlib

/-!
Verification development for the live-long-and-prospero compiler pipeline.

The Rust sources under `src/` are embedded shallowly: pure functions become
Lean functions, in-place mutation becomes explicit state passing, machine
integers become `Nat` with explicit bounds where the source checks them, and
code paths that abort in the source return `Option` (where `none` marks the
abort).  Definitions follow the corresponding Rust items and keep their names.
-/

namespace Prospero

/-- `Var` from `src/ir/mod.rs`: the three input variables. -/
inductive Var where
  | X
  | Y
  | Z
deriving DecidableEq, Repr

/-- Discriminant of `Var` as in `Var as u8` (declaration order). -/
def Var.toNat : Var → Nat
  | .X => 0
  | .Y => 1
  | .Z => 2

/-- `VarSet` from `src/ir/mod.rs`: a bit mask over `Var` (a `u8` in the
source; constructed values always have `mask < 8`). -/
structure VarSet where
  mask : Nat
deriving DecidableEq, Repr

/-- `VarSet::ALL`. -/
def VarSet.ALL : VarSet := ⟨7⟩

/-- `VarSet::idx`: the mask value itself. -/
def VarSet.idx (s : VarSet) : Nat := s.mask

/-- `impl From<Var> for VarSet`: `1 << value as u8`. -/
def VarSet.ofVar (v : Var) : VarSet := ⟨1 <<< v.toNat⟩

/-- `impl Default for VarSet`: the empty set (constants). -/
def VarSet.empty : VarSet := ⟨0⟩

/-- `impl BitOr for VarSet`: bitwise or of the masks. -/
def VarSet.or (a b : VarSet) : VarSet := ⟨a.mask ||| b.mask⟩

/-- `Ord for VarSet` is derived in the source, hence comparison is by mask
value.  `compare` mirrors `Ord::cmp`. -/
def VarSet.lt (a b : VarSet) : Bool := a.mask < b.mask

/-- `UnOp` from `src/ir/mod.rs`. -/
inductive UnOp where
  | Neg
  | Square
  | Sqrt
deriving DecidableEq, Repr

/-- `BinOp` from `src/ir/mod.rs`. -/
inductive BinOp where
  | Add
  | Sub
  | Mul
  | Min
  | Max
deriving DecidableEq, Repr

/-- `BinOp::is_commutative`. -/
def BinOp.is_commutative : BinOp → Bool
  | .Add => true
  | .Sub => false
  | .Mul => true
  | .Min => true
  | .Max => true

/-- `Location` is `u16` in the source; modelled as `Nat` with the sentinel
`Location::MAX = 65535` kept explicit where the source uses it. -/
def locationMAX : Nat := 65535

/-- `Inst` from `src/ir/mod.rs`.  `InstIdx` arguments are modelled as the
zero-based index (`InstIdx::idx` of the source value); the source bounds them
by `u16` at creation, which the pool operations below check explicitly.
Constants (`Const`) are 32-bit IEEE-754 bit patterns, compared by bits in the
source, hence modelled by their bit pattern. -/
inductive Inst where
  | constI (value : Nat)
  | varI (var : Var)
  | unOp (op : UnOp) (arg : Nat)
  | binOp (op : BinOp) (a b : Nat)
  | load (vars : VarSet) (loc : Nat)
deriving DecidableEq, Repr

/-- `Inst::args` (the argument indices of an instruction). -/
def Inst.args : Inst → List Nat
  | .constI _ => []
  | .varI _ => []
  | .load _ _ => []
  | .unOp _ arg => [arg]
  | .binOp _ a b => [a, b]

/-- `Insts` from `src/ir/mod.rs`: the instruction pool, the parallel VarSet
sequence, and the GVN table (a `HashMap<Inst, InstIdx>`, modelled as an
association list with at most one entry per key). -/
structure Insts where
  pool : List Inst
  vars : List VarSet
  gvn : List (Inst × Nat)
deriving DecidableEq, Repr

/-- `Default for Insts`: all three containers empty. -/
def Insts.empty : Insts := ⟨[], [], []⟩

/-- Lookup in the GVN hash map. -/
def gvnGet (g : List (Inst × Nat)) (k : Inst) : Option Nat :=
  match g.find? (fun p => p.1 = k) with
  | some p => some p.2
  | none => none

/-- First rewrite step of `Insts::push`: `Square (Neg x) → Square x`,
commutative argument sorting, and the `Sub` reversal rewrite.  Returns `none`
where the source would index out of bounds. -/
def Insts.pushRewrite (s : Insts) (inst : Inst) : Option Inst :=
  match inst with
  | .unOp .Square arg =>
    match s.pool[arg]? with
    | none => none
    | some (.unOp .Neg pos) => some (.unOp .Square pos)
    | some _ => some inst
  | .binOp op a b =>
    match op with
    | .Add | .Mul | .Min | .Max =>
      some (.binOp op (min a b) (max a b))
    | .Sub =>
      match gvnGet s.gvn (.binOp .Sub b a) with
      | some idx => some (.unOp .Neg idx)
      | none => some inst
  | _ => some inst

/-- The VarSet recorded for a newly pushed instruction (the `self.vars.push`
match in `Insts::push`); `none` where an argument index is out of bounds. -/
def Insts.newVars (s : Insts) : Inst → Option VarSet
  | .constI _ => some VarSet.empty
  | .varI v => some (VarSet.ofVar v)
  | .unOp _ arg => s.vars[arg]?
  | .binOp _ a b =>
    match s.vars[a]?, s.vars[b]? with
    | some va, some vb => some (va.or vb)
    | _, _ => none
  | .load vars _ => some vars

/-- `Insts::push`.  Returns the index of the (possibly pre-existing) value and
the updated pool, or `none` where the source panics (out-of-bounds index or a
pool grown past the `u16` index space). -/
def Insts.push (s : Insts) (inst : Inst) : Option (Nat × Insts) :=
  match s.pushRewrite inst with
  | none => none
  | some inst =>
    match gvnGet s.gvn inst with
    | some idx => some (idx, s)
    | none =>
      match s.newVars inst with
      | none => none
      | some vs =>
        if s.pool.length ≤ 65534 then
          some (s.pool.length,
            { pool := s.pool ++ [inst],
              vars := s.vars ++ [vs],
              gvn := s.gvn ++ [(inst, s.pool.length)] })
        else
          none

/-- `Insts::push` over a whole list of instructions, from a given state
(the way the parser constructs the pool). -/
def Insts.pushAll (s : Insts) : List Inst → Option Insts
  | [] => some s
  | i :: rest =>
    match s.push i with
    | none => none
    | some (_, s') => s'.pushAll rest

/-- The per-index component of the Insts-pool invariant: argument indices are
strictly below the instruction's own index and the recorded VarSet is the
union of the operands' VarSets (empty for `Const`, the singleton for `Var`,
verbatim for `Load`). -/
def Insts.instOk (s : Insts) (i : Nat) : Bool :=
  match s.pool[i]?, s.vars[i]? with
  | some inst, some vs =>
    match inst with
    | .constI _ => vs = VarSet.empty
    | .varI v => vs = VarSet.ofVar v
    | .unOp _ arg =>
      arg < i && s.vars[arg]? = some vs
    | .binOp _ a b =>
      a < i && b < i &&
        (match s.vars[a]?, s.vars[b]? with
         | some va, some vb => vs = va.or vb
         | _, _ => false)
    | .load lvars _ => vs = lvars
  | _, _ => false

/-- The Insts-pool invariant: parallel lengths, every instruction well
formed, and every GVN entry naming its own pool slot. -/
def Insts.wf (s : Insts) : Bool :=
  s.vars.length = s.pool.length &&
  (List.range s.pool.length).all (fun i => s.instOk i) &&
  s.gvn.all (fun p => p.2 < s.pool.length && s.pool[p.2]? = some p.1)

lemma gvnGet_mem {g : List (Inst × Nat)} {k : Inst} {i : Nat}
    (h : gvnGet g k = some i) : (k, i) ∈ g := by
  unfold gvnGet at h
  cases hf : g.find? (fun p => p.1 = k) with
  | none => rw [hf] at h; exact absurd h (by simp)
  | some p =>
    rw [hf] at h
    have hmem := List.mem_of_find?_eq_some hf
    have hkey := List.find?_some hf
    simp only [decide_eq_true_eq] at hkey
    cases p with
    | mk p1 p2 =>
      simp only [Option.some.injEq] at h
      subst h
      cases hkey
      exact hmem

lemma wf_parts {s : Insts} (h : s.wf = true) :
    s.vars.length = s.pool.length ∧
    (∀ i, i < s.pool.length → s.instOk i = true) ∧
    (∀ p ∈ s.gvn, p.2 < s.pool.length ∧ s.pool[p.2]? = some p.1) := by
  unfold Insts.wf at h
  simp only [Bool.and_eq_true, List.all_eq_true, decide_eq_true_eq,
    List.mem_range] at h
  obtain ⟨⟨h1, h2⟩, h3⟩ := h
  refine ⟨h1, fun i hi => h2 i hi, fun p hp => ?_⟩
  have := h3 p hp
  simp only [Bool.and_eq_true, decide_eq_true_eq] at this
  exact this

/-- C6 (Sub reversal), GVN-table form used below: if `Sub b a` is in the
value-number table at index `i`, pushing `Sub a b` never appends a new `Sub`;
it yields the index of `Neg i` (appending that `Neg` only if missing). -/
theorem push_sub_reversal (s : Insts) (a b i : Nat)
    (hw : s.wf = true)
    (hg : gvnGet s.gvn (.binOp .Sub b a) = some i)
    (hcap : s.pool.length ≤ 65534) :
    ∃ j s', s.push (.binOp .Sub a b) = some (j, s') ∧
      (s'.pool = s.pool ∨ s'.pool = s.pool ++ [.unOp .Neg i]) ∧
      s'.pool[j]? = some (.unOp .Neg i) := by
  obtain ⟨hlen, _, hgvn⟩ := wf_parts hw
  have hi : i < s.pool.length := (hgvn _ (gvnGet_mem hg)).1
  simp only [Insts.push, Insts.pushRewrite, hg]
  cases hneg : gvnGet s.gvn (.unOp .Neg i) with
  | some j =>
    refine ⟨j, s, rfl, Or.inl rfl, ?_⟩
    exact (hgvn _ (gvnGet_mem hneg)).2
  | none =>
    have hvars : i < s.vars.length := by omega
    obtain ⟨vs, hvs⟩ : ∃ vs, s.vars[i]? = some vs :=
      ⟨s.vars[i], List.getElem?_eq_getElem hvars⟩
    simp only [Insts.newVars, hvs]
    rw [if_pos hcap]
    refine ⟨s.pool.length, _, rfl, Or.inr rfl, ?_⟩
    simp

/-- The pool produced by pushing `var-x`, `var-y`, `sub v1 v0` into an empty
`Insts` (checked against `Insts.pushAll` by `decide` below). -/
def subRevPool : Insts :=
  { pool := [.varI .X, .varI .Y, .binOp .Sub 1 0],
    vars := [⟨1⟩, ⟨2⟩, ⟨3⟩],
    gvn := [(.varI .X, 0), (.varI .Y, 1), (.binOp .Sub 1 0, 2)] }

/-- Witness for `push_sub_reversal` at a concrete three-instruction pool. -/
theorem push_sub_reversal_witness :
    ∃ j s', subRevPool.push (.binOp .Sub 0 1) = some (j, s') ∧
      (s'.pool = subRevPool.pool ∨
        s'.pool = subRevPool.pool ++ [.unOp .Neg 2]) ∧
      s'.pool[j]? = some (.unOp .Neg 2) :=
  push_sub_reversal subRevPool 0 1 2 (by decide) (by decide) (by decide)

lemma instOk_append (g : List (Inst × Nat)) {s : Insts} {x : Inst}
    {vs : VarSet} {i : Nat}
    (hlen : s.vars.length = s.pool.length) (hi : i < s.pool.length)
    (hok : s.instOk i = true) :
    Insts.instOk ⟨s.pool ++ [x], s.vars ++ [vs], g⟩ i = true := by
  unfold Insts.instOk at hok ⊢
  rw [List.getElem?_append_left hi, List.getElem?_append_left (by omega)]
  cases hp : s.pool[i]? with
  | none => rw [hp] at hok; exact absurd hok (by simp)
  | some instr =>
    rw [hp] at hok
    cases hv : s.vars[i]? with
    | none => rw [hv] at hok; exact absurd hok (by simp)
    | some vsi =>
      rw [hv] at hok
      cases instr with
      | constI v => exact hok
      | varI v => exact hok
      | load lv loc => exact hok
      | unOp op arg =>
        simp only [Bool.and_eq_true, decide_eq_true_eq] at hok ⊢
        obtain ⟨h1, h2⟩ := hok
        exact ⟨h1, by rw [List.getElem?_append_left (by omega)]; exact h2⟩
      | binOp op a b =>
        simp only [Bool.and_eq_true, decide_eq_true_eq] at hok ⊢
        obtain ⟨⟨h1, h2⟩, h3⟩ := hok
        refine ⟨⟨h1, h2⟩, ?_⟩
        rw [List.getElem?_append_left (show a < s.vars.length by omega),
          List.getElem?_append_left (show b < s.vars.length by omega)]
        exact h3

lemma instOk_new (g : List (Inst × Nat)) {s : Insts} {x : Inst} {vs : VarSet}
    (hlen : s.vars.length = s.pool.length)
    (hnv : s.newVars x = some vs) :
    Insts.instOk ⟨s.pool ++ [x], s.vars ++ [vs], g⟩ s.pool.length = true := by
  unfold Insts.instOk
  rw [List.getElem?_concat_length,
    show (s.vars ++ [vs])[s.pool.length]? = some vs by
      rw [← hlen]; exact List.getElem?_concat_length ..]
  cases x with
  | constI v =>
    simp only [Insts.newVars, Option.some.injEq] at hnv
    simp [hnv]
  | varI v =>
    simp only [Insts.newVars, Option.some.injEq] at hnv
    simp [hnv]
  | load lv loc =>
    simp only [Insts.newVars, Option.some.injEq] at hnv
    simp [hnv]
  | unOp op arg =>
    simp only [Insts.newVars] at hnv
    have harg : arg < s.vars.length := by
      by_contra hc
      rw [List.getElem?_eq_none (by omega)] at hnv
      exact absurd hnv (by simp)
    simp only [Bool.and_eq_true, decide_eq_true_eq]
    exact ⟨by omega, by rw [List.getElem?_append_left harg]; exact hnv⟩
  | binOp op a b =>
    simp only [Insts.newVars] at hnv
    cases hva : s.vars[a]? with
    | none => rw [hva] at hnv; exact absurd hnv (by simp)
    | some va =>
      cases hvb : s.vars[b]? with
      | none => rw [hva, hvb] at hnv; exact absurd hnv (by simp)
      | some vb =>
        rw [hva, hvb] at hnv
        simp only [Option.some.injEq] at hnv
        have ha : a < s.vars.length := by
          by_contra hc
          rw [List.getElem?_eq_none (by omega)] at hva
          exact absurd hva (by simp)
        have hb : b < s.vars.length := by
          by_contra hc
          rw [List.getElem?_eq_none (by omega)] at hvb
          exact absurd hvb (by simp)
        simp only [Bool.and_eq_true, decide_eq_true_eq]
        refine ⟨⟨by omega, by omega⟩, ?_⟩
        rw [List.getElem?_append_left ha, List.getElem?_append_left hb, hva, hvb]
        simp [hnv]

lemma wf_push_append {s : Insts} {x : Inst} {vs : VarSet}
    (hw : s.wf = true) (hnv : s.newVars x = some vs) :
    Insts.wf ⟨s.pool ++ [x], s.vars ++ [vs],
      s.gvn ++ [(x, s.pool.length)]⟩ = true := by
  obtain ⟨hlen, hok, hgvn⟩ := wf_parts hw
  unfold Insts.wf
  simp only [Bool.and_eq_true, List.all_eq_true, decide_eq_true_eq,
    List.mem_range]
  refine ⟨⟨by simp [hlen], fun i hi => ?_⟩, fun p hp => ?_⟩
  · simp only [List.length_append, List.length_cons, List.length_nil] at hi
    rcases Nat.lt_or_ge i s.pool.length with h | h
    · exact instOk_append _ hlen h (hok i h)
    · have : i = s.pool.length := by omega
      subst this
      exact instOk_new _ hlen hnv
  · simp only [List.mem_append, List.mem_singleton] at hp
    rcases hp with hp | hp
    · obtain ⟨h1, h2⟩ := hgvn p hp
      constructor
      · simp only [List.length_append, List.length_cons, List.length_nil]
        omega
      · rw [List.getElem?_append_left h1]
        exact h2
    · subst hp
      simp only [List.length_append, List.length_cons, List.length_nil]
      refine ⟨by omega, ?_⟩
      simp [List.getElem?_concat_length]

/-- A successful `Insts::push` preserves the pool invariant. -/
lemma push_wf {s : Insts} {x : Inst} {j : Nat} {s' : Insts}
    (hw : s.wf = true) (hp : s.push x = some (j, s')) : s'.wf = true := by
  cases hr : s.pushRewrite x with
  | none => rw [Insts.push, hr] at hp; exact absurd hp (by simp)
  | some x' =>
    cases hg : gvnGet s.gvn x' with
    | some idx =>
      rw [Insts.push, hr] at hp
      simp only [hg, Option.some.injEq, Prod.mk.injEq] at hp
      rw [← hp.2]
      exact hw
    | none =>
      cases hnv : s.newVars x' with
      | none =>
        rw [Insts.push, hr] at hp
        simp only [hg, hnv] at hp
        exact absurd hp (by simp)
      | some vs =>
        rw [Insts.push, hr] at hp
        simp only [hg, hnv] at hp
        by_cases hcap : s.pool.length ≤ 65534
        · rw [if_pos hcap] at hp
          simp only [Option.some.injEq, Prod.mk.injEq] at hp
          rw [← hp.2]
          exact wf_push_append hw hnv
        · rw [if_neg hcap] at hp
          exact absurd hp (by simp)

lemma pushAll_wf_aux {l : List Inst} {s s' : Insts}
    (hw : s.wf = true) (h : s.pushAll l = some s') : s'.wf = true := by
  induction l generalizing s with
  | nil =>
    unfold Insts.pushAll at h
    simp only [Option.some.injEq] at h
    rw [← h]; exact hw
  | cons i rest ih =>
    unfold Insts.pushAll at h
    cases hp : s.push i with
    | none => rw [hp] at h; exact absurd h (by simp)
    | some r =>
      rw [hp] at h
      exact ih (push_wf hw hp) h

/-- The pool invariant holds for every pool constructed from the empty pool
by a sequence of `Insts::push` calls (the parser/simplify construction
path). -/
theorem insts_wf_of_pushAll (l : List Inst) (s' : Insts)
    (h : Insts.empty.pushAll l = some s') : s'.wf = true :=
  pushAll_wf_aux (by decide) h

/-- The pool produced by pushing `var-x`, `var-y`, `add v1 v0`,
`square v2` into an empty pool (note the sorted `Add` arguments). -/
def wfWitnessPool : Insts :=
  { pool := [.varI .X, .varI .Y, .binOp .Add 0 1, .unOp .Square 2],
    vars := [⟨1⟩, ⟨2⟩, ⟨3⟩, ⟨3⟩],
    gvn := [(.varI .X, 0), (.varI .Y, 1), (.binOp .Add 0 1, 2),
      (.unOp .Square 2, 3)] }

/-- Witness for `insts_wf_of_pushAll` on a concrete program. -/
theorem insts_wf_of_pushAll_witness :
    Insts.empty.pushAll
      [.varI .X, .varI .Y, .binOp .Add 1 0, .unOp .Square 2] =
        some wfWitnessPool ∧
      wfWitnessPool.wf = true :=
  ⟨by decide, insts_wf_of_pushAll
    [.varI .X, .varI .Y, .binOp .Add 1 0, .unOp .Square 2] _ (by decide)⟩

/-! ### Textual IR reader (`src/ir/io.rs`) -/

/-- `Error` from `src/ir/io.rs` (I/O failures aside, which do not arise in
the embedding). -/
inductive ReadError where
  | Empty
  | InvalidConst
  | MissingToken
  | ExtraToken (t : String)
  | UndefinedName (t : String)
  | RedefinedName (t : String)
  | UnknownOp (t : String)
deriving DecidableEq, Repr

/-- The `InstSink` trait from `src/ir/mod.rs` as used by the reader: state
type `σ`, handle type `ι` (`Self::Idx`), output type `ω` (`Self::Output`).
Rust `&mut self` receivers become explicit state passing. -/
structure InstSink (σ ι ω : Type) where
  push_const : σ → Nat → σ × ι
  push_var : σ → Var → σ × ι
  push_unop : σ → UnOp → ι → σ × ι
  push_binop : σ → BinOp → ι → ι → σ × ι
  push_load : σ → VarSet → Nat → σ × ι
  finish : σ → ι → ω

/-- `u8::is_ascii_whitespace` on a character. -/
def isAsciiWs (c : Char) : Bool :=
  c = ' ' || c = '\t' || c = '\n' || c = '\r' || c = '\x0c'

/-- Helper for `splitAsciiWhitespace`: walk the characters, accumulating the
current (reversed) token. -/
def splitWsAux : List Char → List Char → List String
  | [], cur => if cur.isEmpty then [] else [⟨cur.reverse⟩]
  | c :: cs, cur =>
    if isAsciiWs c then
      if cur.isEmpty then splitWsAux cs []
      else (⟨cur.reverse⟩ : String) :: splitWsAux cs []
    else splitWsAux cs (c :: cur)

/-- `str::split_ascii_whitespace`: split on runs of ASCII whitespace,
dropping empty fragments. -/
def splitAsciiWhitespace (s : String) : List String :=
  splitWsAux s.data []

/-- `str::starts_with('#')` on a token. -/
def startsWithHash (t : String) : Bool :=
  t.data.head? = some '#'

/-- One argument token resolved through the name table
(`Tokens::arg`). -/
def readArg (names : List (String × ι)) :
    List String → Except ReadError (ι × List String)
  | [] => .error .MissingToken
  | n :: ts =>
    match names.find? (fun p => p.1 = n) with
    | none => .error (.UndefinedName n)
    | some p => .ok (p.2, ts)

/-- The opcode dispatch of `read` (the `match tokens.next()?` block), covering
`Tokens::unop` and `Tokens::binop`.  `parseConst` abstracts `str::parse::<f32>`
(floating-point parsing is not modelled; the oracle returns the bit pattern,
with `none` for a parse failure). -/
def readInst (sink : InstSink σ ι ω) (parseConst : String → Option Nat)
    (names : List (String × ι)) (st : σ) :
    List String → Except ReadError (ι × σ × List String)
  | [] => .error .MissingToken
  | op :: ts =>
    match op with
    | "const" =>
      match ts with
      | [] => .error .MissingToken
      | t :: ts =>
        match parseConst t with
        | none => .error .InvalidConst
        | some v =>
          let r := sink.push_const st v
          .ok (r.2, r.1, ts)
    | "var-x" => let r := sink.push_var st .X; .ok (r.2, r.1, ts)
    | "var-y" => let r := sink.push_var st .Y; .ok (r.2, r.1, ts)
    | "var-z" => let r := sink.push_var st .Z; .ok (r.2, r.1, ts)
    | "neg" =>
      match readArg names ts with
      | .error e => .error e
      | .ok (i, ts) => let r := sink.push_unop st .Neg i; .ok (r.2, r.1, ts)
    | "square" =>
      match readArg names ts with
      | .error e => .error e
      | .ok (i, ts) => let r := sink.push_unop st .Square i; .ok (r.2, r.1, ts)
    | "sqrt" =>
      match readArg names ts with
      | .error e => .error e
      | .ok (i, ts) => let r := sink.push_unop st .Sqrt i; .ok (r.2, r.1, ts)
    | "add" =>
      match readArg names ts with
      | .error e => .error e
      | .ok (i, ts) =>
        match readArg names ts with
        | .error e => .error e
        | .ok (j, ts) => let r := sink.push_binop st .Add i j; .ok (r.2, r.1, ts)
    | "sub" =>
      match readArg names ts with
      | .error e => .error e
      | .ok (i, ts) =>
        match readArg names ts with
        | .error e => .error e
        | .ok (j, ts) => let r := sink.push_binop st .Sub i j; .ok (r.2, r.1, ts)
    | "mul" =>
      match readArg names ts with
      | .error e => .error e
      | .ok (i, ts) =>
        match readArg names ts with
        | .error e => .error e
        | .ok (j, ts) => let r := sink.push_binop st .Mul i j; .ok (r.2, r.1, ts)
    | "min" =>
      match readArg names ts with
      | .error e => .error e
      | .ok (i, ts) =>
        match readArg names ts with
        | .error e => .error e
        | .ok (j, ts) => let r := sink.push_binop st .Min i j; .ok (r.2, r.1, ts)
    | "max" =>
      match readArg names ts with
      | .error e => .error e
      | .ok (i, ts) =>
        match readArg names ts with
        | .error e => .error e
        | .ok (j, ts) => let r := sink.push_binop st .Max i j; .ok (r.2, r.1, ts)
    | _ => .error (.UnknownOp op)

/-- The reader loop of `read` from `src/ir/io.rs`, over the input split into
lines.  Carries the sink state, the name table and the last defined handle. -/
def readLoop (sink : InstSink σ ι ω) (parseConst : String → Option Nat) :
    List String → σ → List (String × ι) → Option ι → Except ReadError ω
  | [], st, _, last =>
    match last with
    | none => .error .Empty
    | some l => .ok (sink.finish st l)
  | line :: rest, st, names, last =>
    match (splitAsciiWhitespace line).takeWhile
        (fun t => !(startsWithHash t)) with
    | [] => readLoop sink parseConst rest st names last
    | out :: ts =>
      match readInst sink parseConst names st ts with
      | .error e => .error e
      | .ok (idx, st', leftover) =>
        match leftover with
        | next :: _ => .error (.ExtraToken next)
        | [] =>
          match names.find? (fun p => p.1 = out) with
          | some _ => .error (.RedefinedName out)
          | none =>
            readLoop sink parseConst rest st' (names ++ [(out, idx)])
              (some idx)

/-- `read` from `src/ir/io.rs`, starting from a fresh name table. -/
def read (sink : InstSink σ ι ω) (parseConst : String → Option Nat)
    (lines : List String) (st : σ) : Except ReadError ω :=
  readLoop sink parseConst lines st [] none

/-- A trivial sink that hands out consecutive indices (used to exercise the
reader's dispatch, which is sink-agnostic). -/
def countSink : InstSink Nat Nat Nat :=
  { push_const := fun n _ => (n + 1, n)
    push_var := fun n _ => (n + 1, n)
    push_unop := fun n _ _ => (n + 1, n)
    push_binop := fun n _ _ _ => (n + 1, n)
    push_load := fun n _ _ => (n + 1, n)
    finish := fun _ l => l }

/-- Concrete parse oracle for the witness program below. -/
def parse125 : String → Option Nat :=
  fun t => if t = "1.25" then some 1067450368 else none

/-- A program exercising the ten opcodes the reader accepts. -/
def tenOpcodeProgram : List String :=
  ["v0 const 1.25", "v1 var-x", "v2 var-y", "v3 var-z", "v4 neg v1",
   "v5 square v2", "v6 sqrt v3", "v7 add v1 v2", "v8 sub v7 v0",
   "v9 mul v4 v5", "v10 min v8 v9", "v11 max v10 v6"]

/-- C4, counterexample: a well-formed `load <vars> <loc>` line is rejected by
the reader with an `UnknownOp` error — `read` has no `load` opcode arm. -/
theorem read_load_line_rejected :
    read countSink parse125 ["v0 load x 0"] 0 =
      .error (.UnknownOp "load") := rfl

/-- C4, amended: the reader accepts the ten opcodes
`const`, `var-x`, `var-y`, `var-z`, `neg`, `square`, `sqrt`, `add`, `sub`,
`mul`, `min`, `max` (a program exercising all of them reads back
successfully), but a well-formed `load` line makes `read` fail with
`UnknownOp "load"`. -/
theorem read_accepts_all_but_load :
    read countSink parse125 tenOpcodeProgram 0 = .ok 11 ∧
    read countSink parse125 (tenOpcodeProgram ++ ["v12 load xy 3"]) 0 =
      .error (.UnknownOp "load") :=
  ⟨rfl, rfl⟩

/-! ### Memory spaces and x86 address printing
(`src/codegen/mod.rs`, `src/codegen/x86.rs`) -/

/-- `MemorySpace` from `src/codegen/mod.rs`: a 1-based `NonZero<u8>`; `val`
is the stored (1-based) value, `idx` the zero-based `MemorySpace::idx`. -/
structure MemorySpace where
  val : Nat
deriving DecidableEq, Repr

/-- `MemorySpace::STACK` (`NonZero::<u8>::MIN`, i.e. 1). -/
def MemorySpace.STACK : MemorySpace := ⟨1⟩

/-- `MemorySpace::idx`. -/
def MemorySpace.idx (m : MemorySpace) : Nat := m.val - 1

/-- `impl From<VarSet> for MemorySpace`: `value.idx() + 2`. -/
def MemorySpace.ofVarSet (vs : VarSet) : MemorySpace := ⟨vs.idx + 2⟩

/-- The memory space holding the constants table: the empty VarSet's space. -/
def MemorySpace.consts : MemorySpace := MemorySpace.ofVarSet VarSet.empty

/-- `Register` from `src/codegen/mod.rs` (1-based `NonZero<u8>`); modelled by
its zero-based `Register::idx` value. -/
structure Register where
  index : Nat
deriving DecidableEq, Repr

/-- Rust `{:#x}` formatting of a `usize`. -/
def hexString (n : Nat) : String :=
  "0x" ++ ⟨Nat.toDigits 16 n⟩

/-- `Address` from `src/codegen/x86.rs`: memory space, location and
stride. -/
structure Address where
  mem : MemorySpace
  loc : Nat
  stride : Nat
deriving DecidableEq, Repr

/-- The base-pointer table of `impl fmt::Display for Address` (indexed by
`MemorySpace::idx`; out-of-bounds spaces abort in the source). -/
def memorySpaceName (m : MemorySpace) : Option String :=
  ["(%rsp)", "+consts(%rip)", "(%rdi)", "(%rsi)", "(%rdx)", "(%rcx)",
   "(%r8)", "(%r9)", "(%r10)"][m.idx]?

/-- `impl fmt::Display for Address`: optional hex displacement
`loc * stride * 4`, then the base-pointer string. -/
def addressString (a : Address) : Option String :=
  match memorySpaceName a.mem with
  | none => none
  | some name =>
    some ((if a.loc > 0 then hexString (a.loc * a.stride * 4) else "") ++ name)

/-- C1, counterexample: the `{z}` space (VarSet mask 4) is addressed through
`(%rcx)`, not `(%rdx)` as the claim's table states. -/
theorem address_z_space_is_rcx :
    addressString ⟨MemorySpace.ofVarSet ⟨4⟩, 0, 4⟩ = some "(%rcx)" ∧
    addressString ⟨MemorySpace.ofVarSet ⟨4⟩, 0, 4⟩ ≠ some "(%rdx)" :=
  ⟨rfl, by decide⟩

/-- C1, amended: addresses print `(%rsp)` for STACK, `+consts(%rip)` for the
consts space, and the seven VarSet spaces in VarSet-mask order
{x}, {y}, {x,y}, {z}, {x,z}, {y,z}, {x,y,z} are addressed through
`(%rdi)`, `(%rsi)`, `(%rdx)`, `(%rcx)`, `(%r8)`, `(%r9)`, `(%r10)`
respectively (so {x,y} uses `(%rdx)` and {z} uses `(%rcx)`); a non-zero
location prints a `loc * stride * 4` hex displacement first. -/
theorem address_mapping (stride : Nat) :
    addressString ⟨MemorySpace.STACK, 0, stride⟩ = some "(%rsp)" ∧
    addressString ⟨MemorySpace.consts, 0, stride⟩ = some "+consts(%rip)" ∧
    addressString ⟨MemorySpace.ofVarSet ⟨1⟩, 0, stride⟩ = some "(%rdi)" ∧
    addressString ⟨MemorySpace.ofVarSet ⟨2⟩, 0, stride⟩ = some "(%rsi)" ∧
    addressString ⟨MemorySpace.ofVarSet ⟨3⟩, 0, stride⟩ = some "(%rdx)" ∧
    addressString ⟨MemorySpace.ofVarSet ⟨4⟩, 0, stride⟩ = some "(%rcx)" ∧
    addressString ⟨MemorySpace.ofVarSet ⟨5⟩, 0, stride⟩ = some "(%r8)" ∧
    addressString ⟨MemorySpace.ofVarSet ⟨6⟩, 0, stride⟩ = some "(%r9)" ∧
    addressString ⟨MemorySpace.ofVarSet ⟨7⟩, 0, stride⟩ = some "(%r10)" ∧
    addressString ⟨MemorySpace.ofVarSet ⟨1⟩, 2, 4⟩ = some "0x20(%rdi)" :=
  ⟨rfl, rfl, rfl, rfl, rfl, rfl, rfl, rfl, rfl, rfl⟩

/-! ### x86 instruction selection (`src/codegen/x86.rs`) -/

/-- `XmmRmROpcode`. -/
inductive XmmRmROpcode where
  | Vaddps
  | Vsubps
  | Vmulps
  | Vminps
  | Vmaxps
  | Vxorps
deriving DecidableEq, Repr

/-- `XmmUnaryRmRVexOpcode`. -/
inductive XmmUnaryRmRVexOpcode where
  | Vbroadcastss
  | Vmovaps
  | Vsqrtps
deriving DecidableEq, Repr

/-- `XmmMovRMVexOpcode`. -/
inductive XmmMovRMVexOpcode where
  | Vmovaps
  | Vmovd
deriving DecidableEq, Repr

/-- `XmmMem`: a register or a memory operand. -/
inductive XmmMem where
  | xmm (r : Register)
  | mem (a : Address)
deriving DecidableEq, Repr

/-- `X86Inst`. -/
inductive X86Inst where
  | XmmRmR (op : XmmRmROpcode) (src1 : Register) (src2 : XmmMem)
      (dst : Register)
  | XmmUnaryRmRVex (op : XmmUnaryRmRVexOpcode) (src : XmmMem) (dst : Register)
  | XmmMovRMVex (op : XmmMovRMVexOpcode) (src : Register) (dst : XmmMem)
deriving DecidableEq, Repr

/-- `STRIDE` from `src/codegen/x86.rs`. -/
def STRIDE : Nat := 4

/-- `X86Target`: the `vectors` bit mask (a `u16` of memory-space indices
treated as vector), the stride, and the emitted instructions (in reverse
emission order, as in the source). -/
structure X86Target where
  vectors : Nat
  stride : Nat
  insts : List X86Inst
deriving DecidableEq, Repr

/-- `X86Target::new`: fold the given VarSets into the vector mask, always
adding bits 0 and 1 (`| 0b11`, the stack and consts spaces). -/
def X86Target.new (vectors : List VarSet) : X86Target :=
  let v := vectors.foldl
    (fun set vars => set ||| (1 <<< (MemorySpace.ofVarSet vars).idx) ||| 3) 0
  { vectors := v, stride := if v ≠ 0 then STRIDE else 1, insts := [] }

/-- `X86Target::emit_load` (`impl Target for X86Target`): `vmovaps` for a
vector space, `vbroadcastss` otherwise. -/
def X86Target.emit_load (t : X86Target) (reg : Register) (mem : MemorySpace)
    (loc : Nat) : X86Target :=
  let op := if t.vectors &&& (1 <<< mem.idx) ≠ 0 then
    XmmUnaryRmRVexOpcode.Vmovaps
  else
    XmmUnaryRmRVexOpcode.Vbroadcastss
  { t with insts := t.insts ++ [.XmmUnaryRmRVex op (.mem ⟨mem, loc, t.stride⟩) reg] }

/-- `X86Target::emit_store`: `vmovaps` for a vector space, `vmovd`
otherwise. -/
def X86Target.emit_store (t : X86Target) (reg : Register) (mem : MemorySpace)
    (loc : Nat) : X86Target :=
  let op := if t.vectors &&& (1 <<< mem.idx) ≠ 0 then
    XmmMovRMVexOpcode.Vmovaps
  else
    XmmMovRMVexOpcode.Vmovd
  { t with insts := t.insts ++ [.XmmMovRMVex op reg (.mem ⟨mem, loc, t.stride⟩)] }

/-- `X86Target::patch_sunk_load` (the `src/codegen/x86.rs` impl, which takes
the patch position and register; a store at the patch position aborts). -/
def X86Target.patch_sunk_load (t : X86Target) (patch_at : Nat)
    (reg : Register) : Option X86Target :=
  match t.insts[patch_at]? with
  | some (.XmmRmR op src1 _ dst) =>
    some { t with insts := t.insts.set patch_at (.XmmRmR op src1 (.xmm reg) dst) }
  | some (.XmmUnaryRmRVex op _ dst) =>
    some { t with insts := t.insts.set patch_at (.XmmUnaryRmRVex op (.xmm reg) dst) }
  | some (.XmmMovRMVex ..) => none
  | none => none

/-- C2, counterexample: in the `{y}` function's emitter target, a load from
the consts space is emitted as `vmovaps`, not as a `vbroadcastss` broadcast
(the consts table is written with each constant replicated `STRIDE` times, so
the consts space is in the vector set). -/
theorem consts_load_not_broadcast :
    ((X86Target.new [⟨2⟩, VarSet.ofVar .X]).emit_load ⟨0⟩
        MemorySpace.consts 0).insts =
      [.XmmUnaryRmRVex .Vmovaps (.mem ⟨MemorySpace.consts, 0, 4⟩) ⟨0⟩] ∧
    XmmUnaryRmRVexOpcode.Vmovaps ≠ XmmUnaryRmRVexOpcode.Vbroadcastss :=
  ⟨rfl, by decide⟩

lemma vectors_mask_spec :
    ∀ fvm < 8, ∀ sv < 10,
      (((X86Target.new [⟨fvm⟩, VarSet.ofVar .X]).vectors &&&
          (1 <<< sv) ≠ 0) ↔
        (sv = 0 ∨ sv = 1 ∨ sv = 2 ∨ sv = fvm + 1)) := by
  decide

/-- C2, amended: for the target built for a `MemoizedFunc` (vector sets
`[func.vars, {x}]` as in `write_func`), a memory space is treated as vector —
loads as `vmovaps`, stores as `vmovaps` — iff it is the stack, the consts
space, the `{x}` space, or the function's own space; every other space loads
with `vbroadcastss` and stores with `vmovd`.  In particular the consts space
is in the vector set and is loaded with `vmovaps`, not by broadcast. -/
theorem x86_vector_broadcast_rule (fvm sv : Nat) (hf : fvm < 8)
    (hs : sv < 9) (reg : Register) (loc : Nat) :
    (((X86Target.new [⟨fvm⟩, VarSet.ofVar .X]).emit_load reg ⟨sv + 1⟩
        loc).insts =
      [.XmmUnaryRmRVex
        (if sv = 0 ∨ sv = 1 ∨ sv = 2 ∨ sv = fvm + 1 then .Vmovaps
          else .Vbroadcastss)
        (.mem ⟨⟨sv + 1⟩, loc, 4⟩) reg]) ∧
    (((X86Target.new [⟨fvm⟩, VarSet.ofVar .X]).emit_store reg ⟨sv + 1⟩
        loc).insts =
      [.XmmMovRMVex
        (if sv = 0 ∨ sv = 1 ∨ sv = 2 ∨ sv = fvm + 1 then .Vmovaps
          else .Vmovd)
        reg (.mem ⟨⟨sv + 1⟩, loc, 4⟩)]) := by
  have hmask := vectors_mask_spec fvm hf sv (by omega)
  have hidx : (⟨sv + 1⟩ : MemorySpace).idx = sv := rfl
  have hstride : (X86Target.new [⟨fvm⟩, VarSet.ofVar .X]).stride = 4 := by
    interval_cases fvm <;> decide
  constructor
  · unfold X86Target.emit_load
    rw [hidx, hstride]
    by_cases h : sv = 0 ∨ sv = 1 ∨ sv = 2 ∨ sv = fvm + 1
    · rw [if_pos (hmask.mpr h), if_pos h]
      simp [X86Target.new]
    · rw [if_neg (fun hc => h (hmask.mp hc)), if_neg h]
      simp [X86Target.new]
  · unfold X86Target.emit_store
    rw [hidx, hstride]
    by_cases h : sv = 0 ∨ sv = 1 ∨ sv = 2 ∨ sv = fvm + 1
    · rw [if_pos (hmask.mpr h), if_pos h]
      simp [X86Target.new]
    · rw [if_neg (fun hc => h (hmask.mp hc)), if_neg h]
      simp [X86Target.new]

/-- Witness for `x86_vector_broadcast_rule`: the `{y}` function's target
broadcast-loads from the `{x,y}` space (mask 3, space value 5). -/
theorem x86_vector_broadcast_rule_witness :
    (((X86Target.new [⟨2⟩, VarSet.ofVar .X]).emit_load ⟨0⟩ ⟨5⟩ 0).insts =
      [.XmmUnaryRmRVex
        (if (4 : Nat) = 0 ∨ (4 : Nat) = 1 ∨ (4 : Nat) = 2 ∨ (4 : Nat) = 2 + 1
          then .Vmovaps else .Vbroadcastss)
        (.mem ⟨⟨5⟩, 0, 4⟩) ⟨0⟩]) ∧
    (((X86Target.new [⟨2⟩, VarSet.ofVar .X]).emit_store ⟨0⟩ ⟨5⟩ 0).insts =
      [.XmmMovRMVex
        (if (4 : Nat) = 0 ∨ (4 : Nat) = 1 ∨ (4 : Nat) = 2 ∨ (4 : Nat) = 2 + 1
          then .Vmovaps else .Vmovd)
        ⟨0⟩ (.mem ⟨⟨5⟩, 0, 4⟩)]) :=
  x86_vector_broadcast_rule 2 4 (by decide) (by decide) ⟨0⟩ 0

/-! ### Memoization splitting (`src/ir/memoize.rs`)

Pool and output indices are `u16` in the source (overflow aborts); the
overflow bound is idealized away here (`Nat` indices) since no claim depends
on it.  The `todo!("constant folding")` branch of `func_for` — the abort the
claims are about — is modelled as `none`, as is a store-table access out of
bounds. -/

/-- `func_for`: `vars.idx().checked_sub(1)`, with `none` for the
`todo!("constant folding")` branch taken on an empty VarSet. -/
def func_for (vars : VarSet) : Option Nat :=
  if 1 ≤ vars.idx then some (vars.idx - 1) else none

/-- `MemoizedFunc`. -/
structure MemoizedFunc where
  vars : VarSet
  insts : List Inst
  outputs : List (Option Nat)
deriving DecidableEq, Repr

/-- `Default for MemoizedFunc`. -/
def MemoizedFunc.defaultFn : MemoizedFunc := ⟨⟨0⟩, [], []⟩

/-- `MemoizedFunc::push`. -/
def MemoizedFunc.push (f : MemoizedFunc) (inst : Inst) : Nat × MemoizedFunc :=
  (f.insts.length, { f with insts := f.insts ++ [inst] })

/-- `MemoizedFunc::add_output`. -/
def MemoizedFunc.add_output (f : MemoizedFunc) (d : Nat) :
    Nat × MemoizedFunc :=
  (f.outputs.length, { f with outputs := f.outputs ++ [some d] })

/-- `Memoized`: the consts table and the seven per-VarSet functions. -/
structure Memoized where
  consts : List Nat
  funcs : List MemoizedFunc
deriving DecidableEq, Repr

/-- `Default for Memoized`: seven functions with `vars = idx + 1`, then one
reserved output slot in each single-variable function. -/
def Memoized.default : Memoized :=
  let funcs := (List.range VarSet.ALL.idx).map
    (fun i => MemoizedFunc.mk ⟨i + 1⟩ [] [])
  let funcs := [Var.X, Var.Y, Var.Z].foldl
    (fun fs v =>
      match func_for (VarSet.ofVar v) with
      | some fi =>
        let f := fs.getD fi MemoizedFunc.defaultFn
        fs.set fi { f with outputs := f.outputs ++ [none] }
      | none => fs)
    funcs
  { consts := [], funcs := funcs }

/-- `MemoIdx`: VarSet plus index inside that function (`none` marks a bare
`Var`). -/
structure MemoIdx where
  vars : VarSet
  idx : Option Nat
deriving DecidableEq, Repr

/-- `MemoBuilder`: the result under construction, per-function load maps and
per-function store (output-location) tables. -/
structure MemoBuilder where
  result : Memoized
  load : List (List (MemoIdx × Nat))
  store : List (List Nat)
deriving DecidableEq, Repr

/-- `MemoBuilder::new` / `Default`. -/
def MemoBuilder.new : MemoBuilder :=
  { result := Memoized.default,
    load := List.replicate VarSet.ALL.idx [],
    store := List.replicate VarSet.ALL.idx [] }

/-- Common tail of `MemoBuilder::ensure_load`: GVN the load in the target
function's load map, pushing a fresh `Load` instruction if absent. -/
def MemoBuilder.ensureLoadGo (b : MemoBuilder) (vars : VarSet) (arg : MemoIdx)
    (loc : Nat) : Option (MemoBuilder × Nat) :=
  match func_for vars with
  | none => none
  | some funcIdx =>
    match (b.load.getD funcIdx []).find? (fun p => p.1 = arg) with
    | some p => some (b, p.2)
    | none =>
      let st := (b.store.getD funcIdx []) ++ [locationMAX]
      let f := b.result.funcs.getD funcIdx MemoizedFunc.defaultFn
      let r := f.push (.load arg.vars loc)
      some
        ({ result := { b.result with
              funcs := b.result.funcs.set funcIdx r.2 },
           load := b.load.set funcIdx
             ((b.load.getD funcIdx []) ++ [(arg, r.1)]),
           store := b.store.set funcIdx st }, r.1)

/-- `MemoBuilder::ensure_load`. -/
def MemoBuilder.ensure_load (b : MemoBuilder) (vars : VarSet)
    (arg : MemoIdx) : Option (MemoBuilder × Nat) :=
  match arg.idx with
  | some idx =>
    if arg.vars = vars then
      some (b, idx)
    else if 1 ≤ arg.vars.idx then
      let argFunc := arg.vars.idx - 1
      match (b.store.getD argFunc [])[idx]? with
      | none => none
      | some location =>
        if location = locationMAX then
          let f := b.result.funcs.getD argFunc MemoizedFunc.defaultFn
          let r := f.add_output idx
          MemoBuilder.ensureLoadGo
            { b with
              result := { b.result with
                funcs := b.result.funcs.set argFunc r.2 },
              store := b.store.set argFunc
                ((b.store.getD argFunc []).set idx r.1) }
            vars arg r.1
        else
          b.ensureLoadGo vars arg location
    else
      b.ensureLoadGo vars arg idx
  | none => b.ensureLoadGo vars arg 0

/-- `MemoBuilder::push`. -/
def MemoBuilder.pushInst (b : MemoBuilder) (vars : VarSet) (inst : Inst) :
    Option (MemoBuilder × MemoIdx) :=
  match func_for vars with
  | none => none
  | some funcIdx =>
    let st := (b.store.getD funcIdx []) ++ [locationMAX]
    let f := b.result.funcs.getD funcIdx MemoizedFunc.defaultFn
    let r := f.push inst
    some
      ({ b with
         result := { b.result with
           funcs := b.result.funcs.set funcIdx r.2 },
         store := b.store.set funcIdx st },
       ⟨vars, some r.1⟩)

/-- `MemoBuilder::push_const` (`impl InstSink for MemoBuilder`). -/
def MemoBuilder.push_const (b : MemoBuilder) (value : Nat) :
    MemoBuilder × MemoIdx :=
  ({ b with result := { b.result with
      consts := b.result.consts ++ [value] } },
   ⟨VarSet.empty, some b.result.consts.length⟩)

/-- `MemoBuilder::push_var`. -/
def MemoBuilder.push_var (b : MemoBuilder) (v : Var) : MemoBuilder × MemoIdx :=
  (b, ⟨VarSet.ofVar v, none⟩)

/-- `MemoBuilder::push_unop`. -/
def MemoBuilder.push_unop (b : MemoBuilder) (op : UnOp) (arg : MemoIdx) :
    Option (MemoBuilder × MemoIdx) :=
  match b.ensure_load arg.vars arg with
  | none => none
  | some r => r.1.pushInst arg.vars (.unOp op r.2)

/-- `MemoBuilder::push_binop`. -/
def MemoBuilder.push_binop (b : MemoBuilder) (op : BinOp) (a c : MemoIdx) :
    Option (MemoBuilder × MemoIdx) :=
  let vars := a.vars.or c.vars
  match b.ensure_load vars a with
  | none => none
  | some r =>
    match r.1.ensure_load vars c with
    | none => none
    | some r2 => r2.1.pushInst vars (.binOp op r.2 r2.2)

/-- `MemoBuilder::finish`. -/
def MemoBuilder.finish (b : MemoBuilder) (last : MemoIdx) : Option Memoized :=
  match func_for last.vars with
  | none => none
  | some fi =>
    match last.idx with
    | none => none
    | some li =>
      let f := b.result.funcs.getD fi MemoizedFunc.defaultFn
      let r := f.add_output li
      some { b.result with funcs := b.result.funcs.set fi r.2 }

/-- Validity of a `MemoIdx` with respect to a builder: an index into a
source function's store table is in bounds (true of every handle the builder
itself hands out). -/
def MemoIdx.validIn (b : MemoBuilder) (m : MemoIdx) : Bool :=
  match m.idx with
  | none => true
  | some i =>
    if 1 ≤ m.vars.mask then
      decide (i < (b.store.getD (m.vars.mask - 1) []).length)
    else true

lemma getD_set_length_le (l : List (List Nat)) (i k : Nat) (st : List Nat)
    (hst : (l.getD i []).length ≤ st.length) :
    (l.getD k []).length ≤ ((l.set i st).getD k []).length := by
  rcases eq_or_ne i k with rfl | hne
  · by_cases h : i < l.length
    · simp only [List.getD_eq_getElem?_getD, List.getElem?_set_self h]
      exact le_trans (by simpa using hst) (by simp)
    · rw [List.set_eq_of_length_le (by omega)]
  · simp only [List.getD_eq_getElem?_getD, List.getElem?_set_ne hne]
    exact le_rfl

lemma ensureLoadGo_store_le {b : MemoBuilder} {vars : VarSet} {arg : MemoIdx}
    {loc : Nat} {b' : MemoBuilder} {l : Nat}
    (h : b.ensureLoadGo vars arg loc = some (b', l)) (k : Nat) :
    (b.store.getD k []).length ≤ (b'.store.getD k []).length := by
  unfold MemoBuilder.ensureLoadGo at h
  cases hf : func_for vars with
  | none => simp only [hf] at h; exact absurd h (by simp)
  | some funcIdx =>
    simp only [hf] at h
    cases hfind : (b.load.getD funcIdx []).find? (fun p => p.1 = arg) with
    | some p =>
      simp only [hfind, Option.some.injEq, Prod.mk.injEq] at h
      rw [← h.1]
    | none =>
      simp only [hfind, Option.some.injEq, Prod.mk.injEq] at h
      rw [← h.1]
      exact getD_set_length_le _ _ _ _ (by simp)

lemma ensure_load_store_le {b : MemoBuilder} {vars : VarSet} {arg : MemoIdx}
    {b' : MemoBuilder} {l : Nat}
    (h : b.ensure_load vars arg = some (b', l)) (k : Nat) :
    (b.store.getD k []).length ≤ (b'.store.getD k []).length := by
  unfold MemoBuilder.ensure_load at h
  cases harg : arg.idx with
  | none => simp only [harg] at h; exact ensureLoadGo_store_le h k
  | some idx =>
    simp only [harg] at h
    by_cases heq : arg.vars = vars
    · rw [if_pos heq] at h
      simp only [Option.some.injEq, Prod.mk.injEq] at h
      rw [← h.1]
    · rw [if_neg heq] at h
      by_cases hsub : 1 ≤ arg.vars.idx
      · rw [if_pos hsub] at h
        cases hloc : (b.store.getD (arg.vars.idx - 1) [])[idx]? with
        | none => simp only [hloc] at h; exact absurd h (by simp)
        | some location =>
          simp only [hloc] at h
          by_cases hmax : location = locationMAX
          · rw [if_pos hmax] at h
            refine le_trans ?_ (ensureLoadGo_store_le h k)
            exact getD_set_length_le _ _ _ _ (by simp)
          · rw [if_neg hmax] at h
            exact ensureLoadGo_store_le h k
      · rw [if_neg hsub] at h
        exact ensureLoadGo_store_le h k

lemma validIn_mono {b : MemoBuilder} {vars : VarSet} {a : MemoIdx}
    {r : MemoBuilder × Nat} {m : MemoIdx}
    (h : b.ensure_load vars a = some r)
    (hv : m.validIn b = true) : m.validIn r.1 = true := by
  obtain ⟨b', l⟩ := r
  unfold MemoIdx.validIn at hv ⊢
  cases hmi : m.idx with
  | none => rfl
  | some i =>
    simp only [hmi] at hv ⊢
    by_cases hm : 1 ≤ m.vars.mask
    · rw [if_pos hm] at hv ⊢
      have := ensure_load_store_le h (m.vars.mask - 1)
      simp only [decide_eq_true_eq] at hv ⊢
      omega
    · rw [if_neg hm]

lemma ensureLoadGo_isSome (b : MemoBuilder) (vars : VarSet) (arg : MemoIdx)
    (loc : Nat) (h : 1 ≤ vars.mask) :
    (b.ensureLoadGo vars arg loc).isSome = true := by
  unfold MemoBuilder.ensureLoadGo func_for VarSet.idx
  rw [if_pos h]
  split
  next heq => exact absurd heq (by simp)
  next v heq => split <;> simp

lemma ensure_load_isSome (b : MemoBuilder) (vars : VarSet) (arg : MemoIdx)
    (h : 1 ≤ vars.mask) (hv : arg.validIn b = true) :
    (b.ensure_load vars arg).isSome = true := by
  unfold MemoBuilder.ensure_load VarSet.idx
  cases harg : arg.idx with
  | none =>
    simp only [harg]
    exact ensureLoadGo_isSome _ _ _ _ h
  | some idx =>
    simp only [harg]
    by_cases heq : arg.vars = vars
    · rw [if_pos heq]; rfl
    · rw [if_neg heq]
      by_cases hsub : 1 ≤ arg.vars.mask
      · rw [if_pos hsub]
        unfold MemoIdx.validIn at hv
        simp only [harg, if_pos hsub, decide_eq_true_eq] at hv
        obtain ⟨location, hloc⟩ :
            ∃ x, (b.store.getD (arg.vars.mask - 1) [])[idx]? = some x :=
          ⟨_, List.getElem?_eq_getElem hv⟩
        simp only [hloc]
        by_cases hmax : location = locationMAX
        · rw [if_pos hmax]
          exact ensureLoadGo_isSome _ _ _ _ h
        · rw [if_neg hmax]
          exact ensureLoadGo_isSome _ _ _ _ h
      · rw [if_neg hsub]
        exact ensureLoadGo_isSome _ _ _ _ h

lemma pushInst_isSome (b : MemoBuilder) (vars : VarSet) (inst : Inst)
    (h : 1 ≤ vars.mask) : (b.pushInst vars inst).isSome = true := by
  unfold MemoBuilder.pushInst func_for VarSet.idx
  rw [if_pos h]
  rfl

/-- C10: the memoize builder aborts (the `todo!("constant folding")` branch
of `func_for`) exactly on all-constant arithmetic: a `UnOp`/`BinOp` whose
operands all have empty VarSets makes `push_unop`/`push_binop` abort, as does
a `finish` on an empty-VarSet value; conversely, whenever the destination
VarSet is non-empty (and the operand handles are valid for the builder), the
operations complete. -/
theorem memobuilder_const_folding :
    (∀ (b : MemoBuilder) (op : UnOp) (a : MemoIdx),
      a.vars.mask = 0 → b.push_unop op a = none) ∧
    (∀ (b : MemoBuilder) (op : BinOp) (a c : MemoIdx),
      a.vars.mask = 0 → c.vars.mask = 0 → b.push_binop op a c = none) ∧
    (∀ (b : MemoBuilder) (last : MemoIdx),
      last.vars.mask = 0 → b.finish last = none) ∧
    (∀ (b : MemoBuilder) (op : UnOp) (a : MemoIdx),
      1 ≤ a.vars.mask → a.validIn b = true →
      (b.push_unop op a).isSome = true) ∧
    (∀ (b : MemoBuilder) (op : BinOp) (a c : MemoIdx),
      1 ≤ (a.vars.or c.vars).mask → a.validIn b = true →
      c.validIn b = true → (b.push_binop op a c).isSome = true) ∧
    (∀ (b : MemoBuilder) (last : MemoIdx) (li : Nat),
      last.idx = some li → 1 ≤ last.vars.mask →
      (b.finish last).isSome = true) := by
  have hvars0 : ∀ v : VarSet, v.mask = 0 → v = VarSet.empty := by
    intro v hv; cases v; simp_all [VarSet.empty]
  have hff : func_for VarSet.empty = none := rfl
  refine ⟨?_, ?_, ?_, ?_, ?_, ?_⟩
  · intro b op a ha
    obtain ⟨⟨am⟩, aidx⟩ := a
    have ham : am = 0 := ha
    subst ham
    cases aidx <;> rfl
  · intro b op a c ha hc
    obtain ⟨⟨am⟩, aidx⟩ := a
    obtain ⟨⟨cm⟩, cidx⟩ := c
    have ham : am = 0 := ha
    have hcm : cm = 0 := hc
    subst ham hcm
    have hor0 : VarSet.or ⟨0⟩ ⟨0⟩ = VarSet.empty := by
      simp [VarSet.or, VarSet.empty]
    simp only [MemoBuilder.push_binop, hor0]
    cases aidx <;> cases cidx <;> rfl
  · intro b last hl
    obtain ⟨⟨lm⟩, lidx⟩ := last
    have hlm : lm = 0 := hl
    subst hlm
    rfl
  · intro b op a ha hv
    cases he : b.ensure_load a.vars a with
    | none =>
      have := ensure_load_isSome b a.vars a ha hv
      rw [he] at this
      exact absurd this (by simp)
    | some r =>
      simp only [MemoBuilder.push_unop, he]
      exact pushInst_isSome _ _ _ ha
  · intro b op a c hor hva hvc
    cases he : b.ensure_load (a.vars.or c.vars) a with
    | none =>
      have := ensure_load_isSome b (a.vars.or c.vars) a hor hva
      rw [he] at this
      exact absurd this (by simp)
    | some r =>
      cases he2 : r.1.ensure_load (a.vars.or c.vars) c with
      | none =>
        have := ensure_load_isSome r.1 (a.vars.or c.vars) c hor
          (validIn_mono he hvc)
        rw [he2] at this
        exact absurd this (by simp)
      | some r2 =>
        simp only [MemoBuilder.push_binop, he, he2]
        exact pushInst_isSome _ _ _ hor
  · intro b last li hli hl
    simp only [MemoBuilder.finish, func_for, VarSet.idx, hli, if_pos hl,
      Option.isSome_some]

/-- Witness for `memobuilder_const_folding`: pushing `Add` of two constant
handles aborts in a fresh builder, while `Mul` of a constant and `x`
completes. -/
theorem memobuilder_const_folding_witness :
    MemoBuilder.new.push_binop .Add ⟨⟨0⟩, some 0⟩ ⟨⟨0⟩, some 0⟩ = none ∧
    (MemoBuilder.new.push_binop .Mul ⟨⟨0⟩, some 0⟩ ⟨⟨1⟩, none⟩).isSome =
      true :=
  ⟨memobuilder_const_folding.2.1 MemoBuilder.new .Add ⟨⟨0⟩, some 0⟩
      ⟨⟨0⟩, some 0⟩ rfl rfl,
   memobuilder_const_folding.2.2.2.2.1 MemoBuilder.new .Mul ⟨⟨0⟩, some 0⟩
      ⟨⟨1⟩, none⟩ (by decide) (by decide) (by decide)⟩

/-! ### The sunk-load dirty pool (`src/codegen/regalloc.rs`)

`front`, positions and generations are `usize`/`u16` in the source; they are
modelled as `Nat` (the source cannot overflow them in practice and no claim
depends on wrap-around of these counters).  In `get_clean_regs`,
`idx | (front & !(len - 1))` is modelled as
`idx + (front - front % len)`: the stored ring index is less than the
power-of-two length 32 and the mask keeps only multiples of 32, so the
bitwise or is exactly this addition. -/

/-- `QueuedLoad`. -/
structure QueuedLoad where
  inst : Option Nat
  free_generation : Nat
deriving DecidableEq, Repr

/-- `DirtyPool`: the 32-entry ring of queued sunk loads, their patch
positions, the running push counter and the per-register watermark. -/
structure DirtyPool where
  loads : List QueuedLoad
  patch_at : List Nat
  front : Nat
  dirty_before : List Nat
deriving DecidableEq, Repr

/-- `DirtyPool::new`. -/
def DirtyPool.new (regs : Nat) : DirtyPool :=
  { loads := List.replicate 32 ⟨none, 0⟩,
    patch_at := List.replicate 32 0,
    front := 0,
    dirty_before := List.replicate regs 0 }

/-- `DirtyPool::push_load`. -/
def DirtyPool.push_load (p : DirtyPool) (load : Nat) (patch_at : Nat)
    (free_generation : Nat) : Nat × DirtyPool :=
  let idx := p.front % p.loads.length
  (idx,
   { p with
     front := p.front + 1,
     loads := p.loads.set idx ⟨some load, free_generation⟩,
     patch_at := p.patch_at.set idx patch_at })

/-- `DirtyPool::mark_dirty`. -/
def DirtyPool.mark_dirty (p : DirtyPool) (i : Nat) : DirtyPool :=
  { p with dirty_before := p.dirty_before.set i p.front }

/-- `DirtyPool::get_clean_regs`: returns the clean-register bit mask, the
queued generation and the patch position (all zero when the ring slot no
longer holds this load). -/
def DirtyPool.get_clean_regs (p : DirtyPool) (idx : Nat) (load : Nat) :
    Nat × Nat × Nat :=
  let q := p.loads.getD idx ⟨none, 0⟩
  if q.inst ≠ some load then (0, 0, 0)
  else
    let patch_at := p.patch_at.getD idx 0
    let idx := idx + (p.front - p.front % p.loads.length)
    let idx := if idx ≥ p.front then idx - p.loads.length else idx
    let result := (p.dirty_before.enum).foldl
      (fun result pr => if idx ≥ pr.2 then result ||| (1 <<< pr.1) else result)
      0
    (result, q.free_generation, patch_at)

/-- The operations other regalloc code performs on the dirty pool between
queuing a sunk load and patching it. -/
inductive DirtyEvent where
  | markDirty (reg : Nat)
  | pushLoad (inst : Nat) (patch_at : Nat) (free_generation : Nat)
deriving DecidableEq, Repr

/-- Apply one event to the pool. -/
def DirtyPool.applyEvent (p : DirtyPool) : DirtyEvent → DirtyPool
  | .markDirty r => p.mark_dirty r
  | .pushLoad i pa fg => (p.push_load i pa fg).2

/-- Apply a sequence of events to the pool. -/
def DirtyPool.applyEvents (p : DirtyPool) (es : List DirtyEvent) : DirtyPool :=
  es.foldl DirtyPool.applyEvent p

lemma cleanFold_le {idx : Nat} :
    ∀ (l : List Nat) (off acc r : Nat),
      ((List.enumFrom off l).foldl
        (fun result pr =>
          if idx ≥ pr.2 then result ||| (1 <<< pr.1) else result)
        acc).testBit r = true →
      acc.testBit r = true ∨
        (∃ k, k < l.length ∧ off + k = r ∧ l.getD k 0 ≤ idx) := by
  intro l
  induction l with
  | nil => intro off acc r h; exact Or.inl h
  | cons db rest ih =>
    intro off acc r h
    simp only [List.enumFrom, List.foldl_cons] at h
    rcases ih (off + 1) _ r h with hacc | ⟨k, hk, hoff, hle⟩
    · by_cases hd : idx ≥ db
      · rw [if_pos hd] at hacc
        simp only [Nat.testBit_or, Bool.or_eq_true] at hacc
        rcases hacc with hacc | hbit
        · exact Or.inl hacc
        · refine Or.inr ⟨0, by simp, ?_, by simpa using hd⟩
          simp only [Nat.testBit_shiftLeft, Bool.and_eq_true,
            decide_eq_true_eq] at hbit
          obtain ⟨h1, h2⟩ := hbit
          rw [Nat.testBit_one_eq_true_iff_self_eq_zero] at h2
          omega
      · rw [if_neg hd] at hacc
        exact Or.inl hacc
    · exact Or.inr ⟨k + 1, by simpa using hk, by omega, by simpa using hle⟩

/-- The state invariant carried while events are applied after our load was
queued at absolute position `P`. -/
def DirtyInv (P load N : Nat) (q : DirtyPool) : Prop :=
  q.loads.length = 32 ∧
  q.dirty_before.length = N ∧
  P + 1 ≤ q.front ∧
  (q.front ≤ P + 32 →
    (q.loads.getD (P % 32) ⟨none, 0⟩).inst = some load) ∧
  (P + 32 < q.front →
    (q.loads.getD (P % 32) ⟨none, 0⟩).inst ≠ some load)

lemma dirtyInv_step {P load N : Nat} {q : DirtyPool} {e : DirtyEvent}
    (hq : DirtyInv P load N q)
    (he : ∀ pa' fg', e ≠ .pushLoad load pa' fg')
    (her : ∀ r', e = .markDirty r' → r' < N) :
    DirtyInv P load N (q.applyEvent e) := by
  obtain ⟨hlen, hdlen, hfr, hwin, hout⟩ := hq
  cases e with
  | markDirty r =>
    exact ⟨hlen, by simp [DirtyPool.applyEvent, DirtyPool.mark_dirty, hdlen],
      hfr, hwin, hout⟩
  | pushLoad i pa fg =>
    have hne : i ≠ load := by
      intro hcontra
      exact he pa fg (by rw [hcontra])
    simp only [DirtyPool.applyEvent, DirtyPool.push_load, DirtyInv, hlen,
      List.length_set]
    refine ⟨trivial, hdlen, by omega, ?_, ?_⟩
    · intro hle
      by_cases hslot : q.front % 32 = P % 32
      · exfalso
        omega
      · rw [List.getD_eq_getElem?_getD, List.getElem?_set_ne hslot,
          ← List.getD_eq_getElem?_getD]
        exact hwin (by omega)
    · intro hgt
      by_cases hslot : q.front % 32 = P % 32
      · rw [List.getD_eq_getElem?_getD, ← hslot]
        rw [List.getElem?_set_self (by rw [hlen]; exact Nat.mod_lt _ (by omega))]
        simp [hne]
      · rw [List.getD_eq_getElem?_getD, List.getElem?_set_ne hslot,
          ← List.getD_eq_getElem?_getD]
        exact hout (by omega)

lemma dirty_pool_go {P load N : Nat} :
    ∀ (es : List DirtyEvent) (q : DirtyPool),
      DirtyInv P load N q →
      (∀ e ∈ es, (∀ pa' fg', e ≠ .pushLoad load pa' fg') ∧
        (∀ r', e = .markDirty r' → r' < N)) →
      ∀ r, ((q.applyEvents es).get_clean_regs (P % 32) load).1.testBit r =
          true →
        DirtyEvent.markDirty r ∉ es ∧ q.dirty_before.getD r 0 ≤ P := by
  intro es
  induction es with
  | nil =>
    intro q hq _ r hclean
    obtain ⟨hlen, hdlen, hfr, hwin, hout⟩ := hq
    simp only [DirtyPool.applyEvents, List.foldl_nil] at hclean
    unfold DirtyPool.get_clean_regs at hclean
    rw [hlen] at hclean
    by_cases hinst :
        (q.loads.getD (P % 32) ⟨none, 0⟩).inst = some load
    · rw [if_neg (by simpa using hinst)] at hclean
      have hle : q.front ≤ P + 32 := by
        by_contra hgt
        exact hout (by omega) hinst
      rcases cleanFold_le _ 0 0 r hclean with habs | ⟨k, hk, hoff, hdb⟩
      · rw [Nat.zero_testBit] at habs
        exact absurd habs (by simp)
      · have hidx :
            (if P % 32 + (q.front - q.front % 32) ≥ q.front then
              P % 32 + (q.front - q.front % 32) - 32
            else P % 32 + (q.front - q.front % 32)) = P := by
          have h1 : P % 32 < 32 := Nat.mod_lt _ (by omega)
          have h2 : q.front % 32 < 32 := Nat.mod_lt _ (by omega)
          have h3 : 32 * (q.front / 32) = q.front - q.front % 32 := by
            have := Nat.div_add_mod q.front 32
            omega
          have h4 : 32 * (P / 32) = P - P % 32 := by
            have := Nat.div_add_mod P 32
            omega
          split <;> omega
        rw [hidx] at hdb
        simp only [Nat.zero_add] at hoff
        subst hoff
        exact ⟨by simp, by omega⟩
    · rw [if_pos (by simpa using hinst)] at hclean
      rw [Nat.zero_testBit] at hclean
      exact absurd hclean (by simp)
  | cons e rest ih =>
    intro q hq hes r hclean
    have hq' := dirtyInv_step hq (hes e (by simp)).1 (hes e (by simp)).2
    have hclean' :
        (((q.applyEvent e).applyEvents rest).get_clean_regs (P % 32)
          load).1.testBit r = true := by
      simpa [DirtyPool.applyEvents] using hclean
    obtain ⟨hrest, hdb'⟩ := ih (q.applyEvent e) hq'
      (fun x hx => hes x (by simp [hx])) r hclean'
    obtain ⟨hlen, hdlen, hfr, _, _⟩ := hq
    have hene : e ≠ .markDirty r := by
      intro hcontra
      subst hcontra
      have hrN : r < N := (hes _ (by simp)).2 r rfl
      have : (q.applyEvent (.markDirty r)).dirty_before.getD r 0 = q.front := by
        simp only [DirtyPool.applyEvent, DirtyPool.mark_dirty]
        rw [List.getD_eq_getElem?_getD,
          List.getElem?_set_self (by omega), Option.getD_some]
      omega
    refine ⟨by
      intro hmem
      rcases List.mem_cons.mp hmem with hc | hc
      · exact hene hc.symm
      · exact hrest hc, ?_⟩
    cases e with
    | markDirty r' =>
      have hne : r' ≠ r := fun hc => hene (by rw [hc])
      simp only [DirtyPool.applyEvent, DirtyPool.mark_dirty] at hdb'
      rwa [List.getD_eq_getElem?_getD, List.getElem?_set_ne hne,
        ← List.getD_eq_getElem?_getD] at hdb'
    | pushLoad i pa fg =>
      simpa [DirtyPool.applyEvent, DirtyPool.push_load] using hdb'

/-- C8: sunk-load watermark soundness.  After a load is queued in the dirty
pool, for any sequence of watermark updates (register writes) and queue
pushes none of which re-queues the same load, whenever `get_clean_regs`
reports a register clean for that load, no `mark_dirty` of that register —
i.e. no write to it — happened after the load was queued; across ring-buffer
wrap-around the slot check makes the clean set empty. -/
theorem dirty_pool_patch_monotone (p0 : DirtyPool) (load pa fg : Nat)
    (es : List DirtyEvent) (r : Nat)
    (hlen : p0.loads.length = 32)
    (hes : ∀ e ∈ es, (∀ pa' fg', e ≠ .pushLoad load pa' fg') ∧
      (∀ r', e = .markDirty r' → r' < p0.dirty_before.length))
    (hclean : (((p0.push_load load pa fg).2.applyEvents es).get_clean_regs
        (p0.push_load load pa fg).1 load).1.testBit r = true) :
    DirtyEvent.markDirty r ∉ es := by
  have hidx : (p0.push_load load pa fg).1 = p0.front % 32 := by
    simp [DirtyPool.push_load, hlen]
  have hinv : DirtyInv p0.front load p0.dirty_before.length
      (p0.push_load load pa fg).2 := by
    refine ⟨by simp [DirtyPool.push_load, hlen],
      by simp [DirtyPool.push_load], by simp [DirtyPool.push_load], ?_, ?_⟩
    · intro _
      simp only [DirtyPool.push_load, hlen]
      rw [List.getD_eq_getElem?_getD,
        List.getElem?_set_self (by rw [hlen]; exact Nat.mod_lt _ (by omega)),
        Option.getD_some]
    · intro hcontra
      simp only [DirtyPool.push_load] at hcontra
      omega
  have hmod : p0.front % 32 = p0.front % 32 := rfl
  have := dirty_pool_go es (p0.push_load load pa fg).2 hinv hes r
    (by rwa [hidx] at hclean)
  exact this.1

/-- Witness for `dirty_pool_patch_monotone`: queue load 5 in a fresh
two-register pool, dirty register 1; register 0 is reported clean and indeed
was never marked dirty. -/
theorem dirty_pool_patch_monotone_witness :
    DirtyEvent.markDirty 0 ∉ [DirtyEvent.markDirty 1] :=
  dirty_pool_patch_monotone (DirtyPool.new 2) 5 7 0 [.markDirty 1] 0
    (by decide)
    (by
      intro e he
      rw [List.mem_singleton] at he
      subst he
      exact ⟨fun pa' fg' h => DirtyEvent.noConfusion h,
        fun r' h => by cases h; decide⟩)
    (by decide)

/-! ### The register LRU list (`src/codegen/regalloc.rs`)

Registers are stored as 1-based `NonZero<u8>` in the source; the list
operations below work on their zero-based `idx()` values (all of the
source's arithmetic happens on `idx()`). -/

/-- `LruNode`. -/
structure LruNode where
  prev : Nat
  next : Nat
deriving DecidableEq, Repr

/-- `Lru`: doubly linked circular list over register indices. -/
structure Lru where
  data : List LruNode
  head : Nat
deriving DecidableEq, Repr

/-- Read a node (in-bounds in every reachable state). -/
def Lru.nodeAt (s : Lru) (j : Nat) : LruNode := s.data.getD j ⟨0, 0⟩

/-- Write a node. -/
def Lru.setNode (s : Lru) (j : Nat) (nd : LruNode) : Lru :=
  { s with data := s.data.set j nd }

/-- The next pointer at `j`. -/
def Lru.nextAt (s : Lru) (j : Nat) : Nat := (s.nodeAt j).next

/-- The prev pointer at `j`. -/
def Lru.prevAt (s : Lru) (j : Nat) : Nat := (s.nodeAt j).prev

/-- `Lru::new`. -/
def Lru.new (len : Nat) : Lru :=
  { data := (List.range len).map
      (fun i => ⟨(i + len - 1) % len, (i + 1) % len⟩),
    head := 0 }

/-- Second half of `Lru::mark_unused` when `i` was not already the tail:
having captured the old node of `i`, store `⟨prev, next⟩` at `i` and unlink
`i` from its old position (the three `replace`-and-patch writes of the
source). -/
def Lru.relink (s2 : Lru) (i next prev : Nat) (old : LruNode) : Lru :=
  let s3 := s2.setNode i ⟨prev, next⟩
  let s4 := s3.setNode old.prev ⟨(s3.nodeAt old.prev).prev, old.next⟩
  s4.setNode old.next ⟨old.prev, (s4.nodeAt old.next).next⟩

/-- Body of `Lru::mark_unused` for a non-head node: set `head.prev := i`
(the source's `replace`), and if `i` was not already the tail, reinsert it
right before the head. -/
def Lru.unlinkInsert (s : Lru) (i next prev : Nat) : Lru :=
  let s1 := s.setNode next ⟨i, (s.nodeAt next).next⟩
  if prev ≠ i then
    let s2 := s1.setNode prev ⟨(s1.nodeAt prev).prev, i⟩
    s2.relink i next prev (s2.nodeAt i)
  else s1

/-- `Lru::mark_unused`: make `i` the oldest node (the next to pop). -/
def Lru.mark_unused (s : Lru) (i : Nat) : Lru :=
  if i = s.head then
    { s with head := s.nextAt i }
  else
    s.unlinkInsert i s.head (s.nodeAt s.head).prev

/-- `Lru::mark_used`: make `i` the newest node. -/
def Lru.mark_used (s : Lru) (i : Nat) : Lru :=
  { s.mark_unused i with head := i }

/-- `Lru::pop`: return the oldest node, rotating it to newest. -/
def Lru.pop (s : Lru) : Nat × Lru :=
  let out := (s.nodeAt s.head).prev
  (out, { s with head := out })

/-- Iterated `Lru::pop`, collecting the returned registers. -/
def Lru.popList (s : Lru) : Nat → List Nat × Lru
  | 0 => ([], s)
  | n + 1 =>
    let r := s.pop
    let rest := r.2.popList n
    (r.1 :: rest.1, rest.2)

/-- The Rust unit test `test_tiny_lru`, replayed on the embedding. -/
example :
    ((Lru.new 2).mark_used 0).popList 2 =
      ([1, 0], (((Lru.new 2).mark_used 0).popList 2).2) ∧
    ((((Lru.new 2).mark_used 0).popList 2).2.mark_used 1).popList 2 =
      ([0, 1], (((((Lru.new 2).mark_used 0).popList 2).2.mark_used
        1).popList 2).2) := by
  exact ⟨rfl, rfl⟩

/-! ### LRU correctness (C9) -/


/-- Adjacency in the doubly linked list. -/
def Lru.adj (s : Lru) (a b : Nat) : Prop := s.nextAt a = b ∧ s.prevAt b = a

instance {s : Lru} {a b : Nat} : Decidable (s.adj a b) :=
  inferInstanceAs (Decidable (s.nextAt a = b ∧ s.prevAt b = a))

/-- The register list forms this cycle (as a chain closed back to the
head). -/
def Lru.Cycle (s : Lru) (l : List Nat) : Prop :=
  List.Chain' s.adj (l ++ [l.headD 0])

/-- `s` represents the LRU order `l` (head first, next-to-pop last). -/
def Lru.Rep (s : Lru) (l : List Nat) : Prop :=
  l ≠ [] ∧ l.Nodup ∧ l.length = s.data.length ∧
  (∀ x ∈ l, x < s.data.length) ∧ s.head = l.headD 0 ∧ s.Cycle l

lemma getLast?_concats (l : List Nat) (a : Nat) :
    (l ++ [a]).getLast? = some a := by
  simp [List.getLast?_append]

lemma cycle_head_irrel {s : Lru} {h' : Nat} {l : List Nat} :
    Lru.Cycle { s with head := h' } l ↔ s.Cycle l := Iff.rfl

lemma cycle_rotate {s : Lru} {a : Nat} {w : List Nat} :
    s.Cycle (a :: w) ↔ s.Cycle (w ++ [a]) := by
  cases w with
  | nil => simp [Lru.Cycle]
  | cons b w' =>
    show List.Chain' s.adj (a :: b :: (w' ++ [a])) ↔
      List.Chain' s.adj ((b :: w' ++ [a]) ++ [b])
    rw [List.chain'_cons, List.chain'_append]
    constructor
    · rintro ⟨hab, hch⟩
      refine ⟨hch, List.chain'_singleton _, ?_⟩
      intro x hx y hy
      simp only [List.head?_cons, Option.mem_def, Option.some.injEq] at hy
      rw [show (b :: w' ++ [a]).getLast? = some a from
        getLast?_concats (b :: w') a] at hx
      simp only [Option.mem_def, Option.some.injEq] at hx
      subst hx; subst hy
      exact hab
    · rintro ⟨hch, _, hlink⟩
      refine ⟨?_, hch⟩
      apply hlink
      · rw [show (b :: w' ++ [a]).getLast? = some a from
          getLast?_concats (b :: w') a]
        rfl
      · rfl

lemma cycle_last_adj {s : Lru} {m₀ : List Nat} {x : Nat}
    (hc : s.Cycle (m₀ ++ [x])) : s.adj x ((m₀ ++ [x]).headD 0) := by
  unfold Lru.Cycle at hc
  obtain ⟨-, -, hlink⟩ := List.chain'_append.mp hc
  apply hlink
  · rw [getLast?_concats]
    rfl
  · rfl

lemma rep_rotate {s : Lru} {m₀ : List Nat} {x : Nat}
    (h : s.Rep (m₀ ++ [x])) : Lru.Rep { s with head := x } (x :: m₀) := by
  obtain ⟨hne, hnd, hlen, hbd, hhd, hcy⟩ := h
  refine ⟨by simp, ?_, by simpa using hlen, ?_, rfl, ?_⟩
  · have := @List.nodup_middle _ x m₀ []
    simp only [List.append_nil] at this
    exact this.mp hnd
  · intro y hy
    apply hbd
    rcases List.mem_cons.mp hy with rfl | hy
    · simp
    · simp [hy]
  · exact cycle_rotate.mpr hcy

lemma rep_pop {s : Lru} {m₀ : List Nat} {x : Nat} (h : s.Rep (m₀ ++ [x])) :
    s.pop = (x, { s with head := x }) ∧
      Lru.Rep { s with head := x } (x :: m₀) := by
  obtain ⟨hne, hnd, hlen, hbd, hhd, hcy⟩ := h
  have hadj := cycle_last_adj hcy
  have hout : (s.nodeAt s.head).prev = x := by
    rw [hhd]
    exact hadj.2
  constructor
  · unfold Lru.pop
    rw [hout]
  · exact rep_rotate ⟨hne, hnd, hlen, hbd, hhd, hcy⟩

lemma rep_popList :
    ∀ (n : Nat) (l : List Nat) (s : Lru), s.Rep l → n ≤ l.length →
      (s.popList n).1 = l.reverse.take n := by
  intro n
  induction n with
  | zero => intro l s _ _; simp [Lru.popList]
  | succ n ih =>
    intro l s hrep hn
    have hne : l ≠ [] := hrep.1
    obtain ⟨m₀, x, rfl⟩ : ∃ m₀ x, l = m₀ ++ [x] := by
      rcases l.eq_nil_or_concat with rfl | ⟨m₀, x, hx⟩
      · exact absurd rfl hne
      · exact ⟨m₀, x, by simpa [List.concat_eq_append] using hx⟩
    obtain ⟨hpop, hrep'⟩ := rep_pop hrep
    unfold Lru.popList
    rw [hpop]
    simp only []
    rw [ih (x :: m₀) _ hrep' (by simp at hn ⊢; omega)]
    simp only [List.reverse_append, List.reverse_cons, List.reverse_nil,
      List.nil_append, List.singleton_append, List.take_succ_cons]
    congr 1
    rw [List.take_append_eq_append_take,
      show m₀.reverse.length = m₀.length by simp,
      Nat.sub_eq_zero_of_le (by simp at hn; omega), List.take_zero,
      List.append_nil]

lemma setNode_data_length (s : Lru) (j : Nat) (nd : LruNode) :
    (s.setNode j nd).data.length = s.data.length := by
  simp [Lru.setNode]

lemma setNode_head (s : Lru) (j : Nat) (nd : LruNode) :
    (s.setNode j nd).head = s.head := rfl

lemma nodeAt_setNode_self {s : Lru} {j : Nat} (nd : LruNode)
    (hj : j < s.data.length) : (s.setNode j nd).nodeAt j = nd := by
  unfold Lru.setNode Lru.nodeAt
  simp only [List.getD_eq_getElem?_getD, List.getElem?_set_self hj,
    Option.getD_some]

lemma nodeAt_setNode_other {s : Lru} {j k : Nat} (nd : LruNode)
    (hne : j ≠ k) : (s.setNode j nd).nodeAt k = s.nodeAt k := by
  unfold Lru.setNode Lru.nodeAt
  simp only [List.getD_eq_getElem?_getD, List.getElem?_set_ne hne]

lemma headD_append_left {u : List Nat} (w : List Nat) (hne : u ≠ []) :
    (u ++ w).headD 0 = u.headD 0 := by
  cases u with
  | nil => exact absurd rfl hne
  | cons a u' => rfl

/-- Total last element (0 on the empty list). -/
def lastD : List Nat → Nat
  | [] => 0
  | [a] => a
  | _ :: b :: rest => lastD (b :: rest)

lemma getLast?_eq_lastD {u : List Nat} (hne : u ≠ []) :
    u.getLast? = some (lastD u) := by
  induction u with
  | nil => exact absurd rfl hne
  | cons a u' ih =>
    cases u' with
    | nil => rfl
    | cons b u'' =>
      rw [List.getLast?_cons_cons, show lastD (a :: b :: u'') =
        lastD (b :: u'') from rfl]
      exact ih (by simp)

lemma lastD_concat (u : List Nat) (a : Nat) : lastD (u ++ [a]) = a := by
  have h1 : (u ++ [a]).getLast? = some a := List.getLast?_concat u
  have h2 := getLast?_eq_lastD (u := u ++ [a]) (by simp)
  rw [h1] at h2
  exact (Option.some.injEq _ _ ▸ h2.symm : _)

lemma lastD_cons_ne (a : Nat) {rest : List Nat} (h : rest ≠ []) :
    lastD (a :: rest) = lastD rest := by
  cases rest with
  | nil => exact absurd rfl h
  | cons b r => rfl

lemma lastD_append_right (u : List Nat) {w : List Nat} (h : w ≠ []) :
    lastD (u ++ w) = lastD w := by
  induction u with
  | nil => rfl
  | cons a u' ih =>
    rw [List.cons_append, lastD_cons_ne a
      (fun hc => h (List.append_eq_nil.mp hc).2), ih]

lemma headD_mem {u : List Nat} (hne : u ≠ []) : u.headD 0 ∈ u := by
  cases u with
  | nil => exact absurd rfl hne
  | cons a u' => simp

lemma lastD_mem {u : List Nat} (hne : u ≠ []) : lastD u ∈ u := by
  have := getLast?_eq_lastD hne
  exact List.mem_of_mem_getLast? (by rw [this]; rfl)

lemma chain'_preserved {R S : Nat → Nat → Prop} :
    ∀ {u : List Nat}, List.Chain' R u →
      (∀ a ∈ u, ∀ b ∈ u, R a b → S a b) → List.Chain' S u := by
  intro u
  induction u with
  | nil => intro _ _; exact List.chain'_nil
  | cons a u' ih =>
    intro h himp
    cases u' with
    | nil => exact List.chain'_singleton a
    | cons b u'' =>
      rw [List.chain'_cons] at h ⊢
      exact ⟨himp a (by simp) b (by simp) h.1,
        ih h.2 (fun x hx y hy hr => himp x (by simp [hx]) y (by simp [hy]) hr)⟩

lemma nextAt_setNode_self {s : Lru} {j : Nat} (nd : LruNode)
    (hj : j < s.data.length) : (s.setNode j nd).nextAt j = nd.next := by
  rw [Lru.nextAt, nodeAt_setNode_self _ hj]

lemma nextAt_setNode_other {s : Lru} {j k : Nat} (nd : LruNode)
    (hne : j ≠ k) : (s.setNode j nd).nextAt k = s.nextAt k := by
  rw [Lru.nextAt, nodeAt_setNode_other _ hne, Lru.nextAt]

lemma prevAt_setNode_self {s : Lru} {j : Nat} (nd : LruNode)
    (hj : j < s.data.length) : (s.setNode j nd).prevAt j = nd.prev := by
  rw [Lru.prevAt, nodeAt_setNode_self _ hj]

lemma prevAt_setNode_other {s : Lru} {j k : Nat} (nd : LruNode)
    (hne : j ≠ k) : (s.setNode j nd).prevAt k = s.prevAt k := by
  rw [Lru.prevAt, nodeAt_setNode_other _ hne, Lru.prevAt]

lemma setNode_nodeAt_self {s : Lru} {j : Nat} (hj : j < s.data.length) :
    s.setNode j (s.nodeAt j) = s := by
  obtain ⟨data, head⟩ := s
  unfold Lru.setNode Lru.nodeAt
  simp only [Lru.mk.injEq, and_true]
  apply List.ext_getElem?
  intro k
  rcases eq_or_ne j k with rfl | hne
  · rw [List.getElem?_set_self hj, List.getD_eq_getElem?_getD]
    simp only at hj ⊢
    rw [List.getElem?_eq_getElem hj]
    rfl
  · rw [List.getElem?_set_ne hne]

lemma cycle_wrap {s : Lru} {l : List Nat} (hne : l ≠ []) (hc : s.Cycle l) :
    s.adj (lastD l) (l.headD 0) := by
  obtain ⟨-, -, hlink⟩ := List.chain'_append.mp hc
  exact hlink _ (by rw [getLast?_eq_lastD hne]; rfl) _ rfl

lemma head?_eq_headD {w : List Nat} (hne : w ≠ []) :
    w.head? = some (w.headD 0) := by
  cases w with
  | nil => exact absurd rfl hne
  | cons a w' => rfl

lemma rep_mark_unused {s : Lru} {l : List Nat} {i : Nat}
    (h : s.Rep l) (hi : i ∈ l) :
    (s.mark_unused i).Rep (l.erase i ++ [i]) := by
  obtain ⟨hne, hnd, hlen, hbd, hhd, hcy⟩ := h
  by_cases hih : i = s.head
  · obtain ⟨w, rfl⟩ : ∃ w, l = i :: w := by
      cases l with
      | nil => exact absurd rfl hne
      | cons a w => exact ⟨w, by rw [show a = i from (hih.trans hhd).symm]⟩
    rw [List.erase_cons_head]
    unfold Lru.mark_unused
    rw [if_pos hih]
    have hnx : s.nextAt i = (w ++ [i]).headD 0 := by
      have hcy' : List.Chain' s.adj (i :: (w ++ [i])) := hcy
      have := (List.chain'_cons'.mp hcy').1
      have hh := head?_eq_headD (w := w ++ [i]) (by simp)
      exact (this _ (by rw [hh]; rfl)).1
    refine ⟨by simp, ?_, by simpa using hlen, ?_, by rw [hnx], ?_⟩
    · have := @List.nodup_middle _ i w []
      simp only [List.append_nil] at this
      exact this.mpr hnd
    · intro y hy
      apply hbd
      rcases List.mem_append.mp hy with hy | hy
      · simp [hy]
      · simp at hy; simp [hy]
    · exact cycle_rotate.mp hcy
  · -- i is not at the head of the list
    obtain ⟨u, v, rfl⟩ := List.append_of_mem hi
    have hu_ne : u ≠ [] := by
      rintro rfl
      exact hih (by rw [hhd]; rfl)
    have hh0 : s.head = u.headD 0 := by
      rw [hhd, headD_append_left _ hu_ne]
    have hnd' := hnd
    rw [List.nodup_append] at hnd'
    obtain ⟨hndu, hndiv, hdisj⟩ := hnd'
    have hiv : i ∉ v := (List.nodup_cons.mp hndiv).1
    have hiu : i ∉ u := fun hmem => hdisj hmem (by simp)
    rw [List.erase_append_right _ hiu, List.erase_cons_head]
    have hwrap := cycle_wrap (s := s) (l := u ++ i :: v) (by simp) hcy
    have hpr : (s.nodeAt s.head).prev = lastD (u ++ i :: v) := by
      rw [hh0, ← headD_append_left (i :: v) hu_ne]
      exact hwrap.2
    have hhm : s.head ∈ u := hh0 ▸ headD_mem hu_ne
    have hbnd_head : s.head < s.data.length := hbd _ (by simp [hhm])
    cases v with
    | nil =>
      have hpr0 : (s.nodeAt s.head).prev = i := by
        rw [hpr, show lastD (u ++ i :: []) = i from lastD_concat u i]
      have hmu : s.mark_unused i = s := by
        unfold Lru.mark_unused Lru.unlinkInsert
        rw [if_neg hih, hpr0, if_neg (by simp)]
        rw [show (⟨i, (s.nodeAt s.head).next⟩ : LruNode) = s.nodeAt s.head from
          by rw [← hpr0]]
        exact setNode_nodeAt_self hbnd_head
      rw [hmu]
      simp only [List.append_nil]
      exact ⟨hne, hnd, hlen, hbd, hhd, hcy⟩
    | cons b v' =>
      have htm : lastD (b :: v') ∈ b :: v' := lastD_mem (by simp)
      have hulm : lastD u ∈ u := lastD_mem hu_ne
      have dti : lastD (b :: v') ≠ i := fun hc => hiv (hc ▸ htm)
      have dbi : b ≠ i := fun hc => hiv (hc ▸ (by simp : b ∈ b :: v'))
      have duli : lastD u ≠ i := fun hc => hiu (hc ▸ hulm)
      have dht : s.head ≠ lastD (b :: v') := fun hc =>
        hdisj hhm (by rw [hc]; exact List.mem_cons_of_mem _ htm)
      have dhb : s.head ≠ b := fun hc =>
        hdisj hhm (by rw [hc]; simp)
      have dult : lastD u ≠ lastD (b :: v') := fun hc =>
        hdisj hulm (by rw [hc]; exact List.mem_cons_of_mem _ htm)
      have dulb : lastD u ≠ b := fun hc => hdisj hulm (by rw [hc]; simp)
      have dhi : s.head ≠ i := fun hc => hih hc.symm
      -- pointers of the original cycle
      have hcy2 : List.Chain' s.adj (u ++ ((i :: b :: v') ++ [s.head])) := by
        have hx : List.Chain' s.adj ((u ++ (i :: b :: v')) ++
            [(u ++ (i :: b :: v')).headD 0]) := hcy
        rw [headD_append_left _ hu_ne, ← hh0] at hx
        rwa [List.append_assoc] at hx
      obtain ⟨hchu, hchr, hlink1⟩ := List.chain'_append.mp hcy2
      have hul : s.adj (lastD u) i :=
        hlink1 _ (by rw [getLast?_eq_lastD hu_ne]; rfl) _ rfl
      have hib : s.adj i b ∧ List.Chain' s.adj (b :: (v' ++ [s.head])) :=
        List.chain'_cons.mp hchr
      obtain ⟨hchv, -, hlink3⟩ :=
        List.chain'_append.mp (show List.Chain' s.adj
          ((b :: v') ++ [s.head]) from hib.2)
      have hth : s.adj (lastD (b :: v')) s.head :=
        hlink3 _ (by rw [getLast?_eq_lastD (by simp)]; rfl) _ rfl
      -- bounds
      have hbnd_i : i < s.data.length := hbd _ (by simp)
      have hbnd_t : lastD (b :: v') < s.data.length :=
        hbd _ (by simp only [List.mem_append]; right; exact
          List.mem_cons_of_mem _ htm)
      have hbnd_ul : lastD u < s.data.length := hbd _ (by simp [hulm])
      have hbnd_b : b < s.data.length := hbd _ (by simp)
      have ht2 : (s.nodeAt s.head).prev = lastD (b :: v') := by
        rw [hpr, show u ++ i :: b :: v' = u ++ ((i :: b :: v')) from rfl,
          lastD_append_right u (by simp), lastD_cons_ne i (by simp)]
      have hold : s.nodeAt i = ⟨lastD u, b⟩ := by
        have h1 : (s.nodeAt i).prev = lastD u := hul.2
        have h2 : (s.nodeAt i).next = b := hib.1.1
        cases hni : s.nodeAt i with
        | mk p n =>
          rw [hni] at h1 h2
          simp only at h1 h2
          rw [h1, h2]
      have dih : i ≠ s.head := hih
      set sA := s.setNode s.head ⟨i, (s.nodeAt s.head).next⟩ with hsA
      set sB := sA.setNode (lastD (b :: v'))
        ⟨(sA.nodeAt (lastD (b :: v'))).prev, i⟩ with hsB
      set sC := sB.setNode i ⟨lastD (b :: v'), s.head⟩ with hsC
      set sD := sC.setNode (lastD u) ⟨(sC.nodeAt (lastD u)).prev, b⟩ with hsD
      set sE := sD.setNode b ⟨lastD u, (sD.nodeAt b).next⟩ with hsE
      have hlenA : sA.data.length = s.data.length := by
        rw [hsA]; exact setNode_data_length _ _ _
      have hlenB : sB.data.length = s.data.length := by
        rw [hsB, setNode_data_length, hlenA]
      have hlenC : sC.data.length = s.data.length := by
        rw [hsC, setNode_data_length, hlenB]
      have hlenD : sD.data.length = s.data.length := by
        rw [hsD, setNode_data_length, hlenC]
      have hlenE : sE.data.length = s.data.length := by
        rw [hsE, setNode_data_length, hlenD]
      have hfin : s.mark_unused i = sE := by
        rw [hsE, hsD, hsC, hsB, hsA]
        unfold Lru.mark_unused
        rw [if_neg hih, ht2]
        unfold Lru.unlinkInsert
        simp only [if_pos dti]
        unfold Lru.relink
        simp only []
        rw [show ((s.setNode s.head ⟨i, (s.nodeAt s.head).next⟩).setNode
            (lastD (b :: v'))
            ⟨((s.setNode s.head ⟨i, (s.nodeAt s.head).next⟩).nodeAt
              (lastD (b :: v'))).prev, i⟩).nodeAt i = (⟨lastD u, b⟩ : LruNode)
          from by
            rw [nodeAt_setNode_other _ dti, nodeAt_setNode_other _ dhi, hold]]
      have hnext_ul : sE.nextAt (lastD u) = b := by
        rw [hsE, nextAt_setNode_other _ (Ne.symm dulb), hsD,
          nextAt_setNode_self _ (by rw [hlenC]; exact hbnd_ul)]
      have hprev_b : sE.prevAt b = lastD u := by
        rw [hsE, prevAt_setNode_self _ (by rw [hlenD]; exact hbnd_b)]
      have hnext_i : sE.nextAt i = s.head := by
        rw [hsE, nextAt_setNode_other _ dbi, hsD,
          nextAt_setNode_other _ duli, hsC,
          nextAt_setNode_self _ (by rw [hlenB]; exact hbnd_i)]
      have hprev_i : sE.prevAt i = lastD (b :: v') := by
        rw [hsE, prevAt_setNode_other _ dbi, hsD,
          prevAt_setNode_other _ duli, hsC,
          prevAt_setNode_self _ (by rw [hlenB]; exact hbnd_i)]
      have hnext_t : sE.nextAt (lastD (b :: v')) = i := by
        by_cases hc : lastD (b :: v') = b
        · rw [hc, hsE, nextAt_setNode_self _ (by rw [hlenD]; exact hbnd_b)]
          show sD.nextAt b = i
          rw [hsD, nextAt_setNode_other _ dulb, hsC,
            nextAt_setNode_other _ (Ne.symm dbi), ← hc, hsB,
            nextAt_setNode_self _ (by rw [hlenA]; exact hbnd_t)]
        · rw [hsE, nextAt_setNode_other _ (fun hx => hc hx.symm), hsD,
            nextAt_setNode_other _ dult, hsC,
            nextAt_setNode_other _ (fun hx => dti hx.symm), hsB,
            nextAt_setNode_self _ (by rw [hlenA]; exact hbnd_t)]
      have hprev_h : sE.prevAt s.head = i := by
        rw [hsE, prevAt_setNode_other _ (Ne.symm dhb)]
        by_cases hc : s.head = lastD u
        · rw [hsD, ← hc,
            prevAt_setNode_self _ (by rw [hlenC]; exact hbnd_head)]
          show sC.prevAt s.head = i
          rw [hsC, prevAt_setNode_other _ dih, hsB,
            prevAt_setNode_other _ (Ne.symm dht), hsA,
            prevAt_setNode_self _ hbnd_head]
        · rw [hsD, prevAt_setNode_other _ (fun hx => hc hx.symm), hsC,
            prevAt_setNode_other _ dih, hsB,
            prevAt_setNode_other _ (Ne.symm dht), hsA,
            prevAt_setNode_self _ hbnd_head]
      have hnext_other : ∀ k, k ≠ lastD u → k ≠ i → k ≠ lastD (b :: v') →
          sE.nextAt k = s.nextAt k := by
        intro k hk1 hk2 hk3
        have hstep : sD.nextAt k = s.nextAt k := by
          rw [hsD, nextAt_setNode_other _ (fun hx => hk1 hx.symm), hsC,
            nextAt_setNode_other _ (fun hx => hk2 hx.symm), hsB,
            nextAt_setNode_other _ (fun hx => hk3 hx.symm), hsA]
          by_cases hkh : k = s.head
          · rw [← hkh, nextAt_setNode_self _ (by rw [hkh]; exact hbnd_head)]
            rfl
          · rw [nextAt_setNode_other _ (fun hx => hkh hx.symm)]
        by_cases hkb : k = b
        · rw [hkb, hsE, nextAt_setNode_self _ (by rw [hlenD]; exact hbnd_b)]
          show sD.nextAt b = s.nextAt b
          rw [← hkb]
          exact hstep
        · rw [hsE, nextAt_setNode_other _ (fun hx => hkb hx.symm)]
          exact hstep
      have hprev_other : ∀ k, k ≠ s.head → k ≠ i → k ≠ b →
          sE.prevAt k = s.prevAt k := by
        intro k hk1 hk2 hk3
        rw [hsE, prevAt_setNode_other _ (fun hx => hk3 hx.symm)]
        by_cases hkul : k = lastD u
        · rw [hkul, hsD, prevAt_setNode_self _ (by rw [hlenC]; exact hbnd_ul)]
          show sC.prevAt (lastD u) = s.prevAt (lastD u)
          rw [hsC, prevAt_setNode_other _ (Ne.symm duli), hsB,
            prevAt_setNode_other _ (Ne.symm dult), hsA,
            prevAt_setNode_other _ (fun hx => hk1 (hkul.trans hx.symm))]
        · rw [hsD, prevAt_setNode_other _ (fun hx => hkul hx.symm), hsC,
            prevAt_setNode_other _ (fun hx => hk2 hx.symm)]
          by_cases hkt : k = lastD (b :: v')
          · rw [hkt, hsB,
              prevAt_setNode_self _ (by rw [hlenA]; exact hbnd_t)]
            show sA.prevAt (lastD (b :: v')) = s.prevAt (lastD (b :: v'))
            rw [hsA, prevAt_setNode_other _ dht]
          · rw [hsB, prevAt_setNode_other _ (fun hx => hkt hx.symm), hsA,
              prevAt_setNode_other _ (fun hx => hk1 hx.symm)]
      -- the rebuilt cycle
      have chain1 : List.Chain' sE.adj u := by
        refine chain'_preserved hchu ?_
        intro x hx y hy hxy
        have hx_ne_t : x ≠ lastD (b :: v') := fun hc =>
          hdisj hx (by rw [hc]; exact List.mem_cons_of_mem _ htm)
        have hx_ne_i : x ≠ i := fun hc => hiu (hc ▸ hx)
        constructor
        · by_cases hxul : x = lastD u
          · exfalso
            have hxx := hxy.1
            rw [hxul, hul.1] at hxx
            exact hiu (hxx ▸ hy)
          · rw [hnext_other x hxul hx_ne_i hx_ne_t]
            exact hxy.1
        · by_cases hyh : y = s.head
          · exfalso
            have hxx := hxy.2
            rw [hyh] at hxx
            exact hx_ne_t (hxx.symm.trans
              (show s.prevAt s.head = lastD (b :: v') from ht2))
          · have hy_ne_i : y ≠ i := fun hc => hiu (hc ▸ hy)
            have hy_ne_b : y ≠ b := fun hc => hdisj hy (by rw [hc]; simp)
            rw [hprev_other y hyh hy_ne_i hy_ne_b]
            exact hxy.2
      have chain2 : List.Chain' sE.adj (b :: v') := by
        refine chain'_preserved hchv ?_
        intro x hx y hy hxy
        have hx_ne_ul : x ≠ lastD u := fun hc =>
          hdisj hulm (by rw [← hc]; exact List.mem_cons_of_mem _ hx)
        have hx_ne_i : x ≠ i := fun hc => hiv (hc ▸ hx)
        constructor
        · by_cases hxt : x = lastD (b :: v')
          · exfalso
            have hxx := hxy.1
            rw [hxt, hth.1] at hxx
            exact hdisj hhm (by rw [hxx]; exact List.mem_cons_of_mem _ hy)
          · rw [hnext_other x hx_ne_ul hx_ne_i hxt]
            exact hxy.1
        · have hy_ne_h : y ≠ s.head := fun hc =>
            hdisj hhm (by rw [← hc]; exact List.mem_cons_of_mem _ hy)
          have hy_ne_i : y ≠ i := fun hc => hiv (hc ▸ hy)
          by_cases hyb : y = b
          · exfalso
            have hxx := hxy.2
            rw [hyb, hib.1.2] at hxx
            exact hx_ne_i hxx.symm
          · rw [hprev_other y hy_ne_h hy_ne_i hyb]
            exact hxy.2
      have chain3 : List.Chain' sE.adj [i, s.head] :=
        List.chain'_pair.mpr ⟨hnext_i, hprev_h⟩
      have inner : List.Chain' sE.adj ((b :: v') ++ [i, s.head]) := by
        refine List.chain'_append.mpr ⟨chain2, chain3, ?_⟩
        intro x hx y hy
        rw [getLast?_eq_lastD (by simp : (b :: v') ≠ [])] at hx
        rw [show ([i, s.head] : List Nat).head? = some i from rfl] at hy
        simp only [Option.mem_def, Option.some.injEq] at hx hy
        subst hx
        subst hy
        exact ⟨hnext_t, hprev_i⟩
      have full : List.Chain' sE.adj (u ++ ((b :: v') ++ [i, s.head])) := by
        refine List.chain'_append.mpr ⟨chain1, inner, ?_⟩
        intro x hx y hy
        rw [getLast?_eq_lastD hu_ne] at hx
        rw [show ((b :: v') ++ [i, s.head]).head? = some b from rfl] at hy
        simp only [Option.mem_def, Option.some.injEq] at hx hy
        subst hx
        subst hy
        exact ⟨hnext_ul, hprev_b⟩
      have hEhead : sE.head = s.head := by
        rw [hsE, setNode_head, hsD, setNode_head, hsC, setNode_head, hsB,
          setNode_head, hsA, setNode_head]
      rw [hfin]
      refine ⟨by simp, ?_, ?_, ?_, ?_, ?_⟩
      · have step1 : (i :: (u ++ b :: v')).Nodup :=
          (@List.nodup_middle _ i u (b :: v')).mp hnd
        have step2 := (@List.nodup_middle _ i (u ++ b :: v')
          []).mpr (by simpa using step1)
        simpa using step2
      · simp only [List.length_append, List.length_cons, List.length_nil]
          at hlen ⊢
        rw [hlenE]
        omega
      · intro x hx
        rw [hlenE]
        refine hbd x ?_
        simp only [List.mem_append, List.mem_cons] at hx ⊢
        tauto
      · rw [hEhead, hh0]
        rw [show (u ++ b :: v' ++ [i] : List Nat) = u ++ (b :: v' ++ [i])
          from by simp]
        rw [headD_append_left _ hu_ne]
      · show List.Chain' sE.adj ((u ++ b :: v' ++ [i]) ++
          [(u ++ b :: v' ++ [i]).headD 0])
        have hmr : ((u ++ b :: v' ++ [i]) ++
            [(u ++ b :: v' ++ [i]).headD 0] : List Nat) =
            u ++ ((b :: v') ++ [i, s.head]) := by
          rw [show ((u ++ b :: v' ++ [i]).headD 0) = s.head from by
            rw [show (u ++ b :: v' ++ [i] : List Nat) =
              u ++ (b :: v' ++ [i]) from by simp,
              headD_append_left _ hu_ne, hh0]]
          simp
        rw [hmr]
        exact full

/-- Executable chain check for `List.Chain' s.adj`. -/
def Lru.chainB (s : Lru) : List Nat → Bool
  | [] => true
  | [_] => true
  | a :: b :: rest => (decide (s.adj a b)) && s.chainB (b :: rest)

lemma chainB_iff (s : Lru) :
    ∀ l : List Nat, s.chainB l = true ↔ List.Chain' s.adj l := by
  intro l
  induction l with
  | nil => simp [Lru.chainB]
  | cons a l' ih =>
    cases l' with
    | nil => simp [Lru.chainB]
    | cons b rest =>
      rw [List.chain'_cons, ← ih]
      show (decide (s.adj a b) && s.chainB (b :: rest)) = true ↔ _
      simp

instance {s : Lru} {l : List Nat} : Decidable (s.Cycle l) :=
  decidable_of_iff _ (chainB_iff s (l ++ [l.headD 0]))

instance {s : Lru} {l : List Nat} : Decidable (s.Rep l) :=
  inferInstanceAs (Decidable (_ ∧ _ ∧ _ ∧ _ ∧ _ ∧ _))

lemma rep_mark_used {s : Lru} {l : List Nat} {i : Nat}
    (h : s.Rep l) (hi : i ∈ l) :
    (s.mark_used i).Rep (i :: l.erase i) := by
  have hmu := rep_mark_unused h hi
  exact rep_rotate hmu

/-- C9: after mark_used r on a well-formed LRU state representing order l,
popping len times returns r last (after every other register once). -/
theorem lru_mark_used_pop_last {s : Lru} {l : List Nat} {r : Nat}
    (h : s.Rep l) (hr : r ∈ l) :
    Lru.Rep (s.mark_used r) (r :: l.erase r) ∧
    ((s.mark_used r).popList l.length).1 = (l.erase r).reverse ++ [r] := by
  have hrep := rep_mark_used h hr
  have hpos : 0 < l.length := List.length_pos.mpr h.1
  have hlen : (r :: l.erase r).length = l.length := by
    simp only [List.length_cons, List.length_erase_of_mem hr]
    omega
  refine ⟨hrep, ?_⟩
  have hrun := rep_popList l.length (r :: l.erase r) _ hrep (by omega)
  rw [hrun, ← hlen,
    show (r :: l.erase r).length = (r :: l.erase r).reverse.length from
      (List.length_reverse _).symm,
    List.take_length, List.reverse_cons]

theorem lru_mark_used_pop_last_witness :
    (Lru.new 2).Rep [0, 1] ∧ (0 : Nat) ∈ [0, 1] ∧
    (((Lru.new 2).mark_used 0).popList 2).1 =
      (([0, 1] : List Nat).erase 0).reverse ++ [0] :=
  ⟨by decide, by decide,
    (@lru_mark_used_pop_last (Lru.new 2) [0, 1] 0 (by decide) (by decide)).2⟩


/-! ### The reassociate pass (`src/ir/reassociate.rs`) -/

/-- `Inst::is_unop`: the argument when the instruction is the given unary
operator. -/
def Inst.is_unop (inst : Inst) (u : UnOp) : Option Nat :=
  match inst with
  | .unOp u' a => if u' = u then some a else none
  | _ => none

/-- `Inst::is_binop_mut` (reading side): the arguments when the instruction
is a `BinOp` of the given operator. -/
def Inst.is_binop (inst : Inst) (op : BinOp) : Option (Nat × Nat) :=
  match inst with
  | .binOp op' a b => if op' = op then some (a, b) else none
  | _ => none

/-- One saturating-`u8` use-count increment (`uses[arg] += 1`). -/
def bumpUse (uses : List Nat) (a : Nat) : List Nat :=
  uses.set a (min (uses.getD a 0 + 1) 255)

/-- The backward use-counting pre-pass of `reassociate`: seed the last
instruction with one use, then walk the pool backwards, counting the
arguments of every instruction that is itself used. -/
def computeUses (pool : List Inst) : List Nat :=
  (pool.enum.reverse).foldl
    (fun uses p =>
      if 0 < uses.getD p.1 0 then p.2.args.foldl bumpUse uses else uses)
    ((List.replicate pool.length 0).set (pool.length - 1) 1)

/-- The state `reassociate` mutates: the pool, the parallel VarSet array and
the worklist stack (`Vec<InstIdx>`, top first). -/
structure ReState where
  pool : List Inst
  vars : List VarSet
  stack : List Nat
deriving DecidableEq, Repr

/-- `rebalance`.  `r`, `ca`, `cb` are the pool slots holding `inst`,
`inst1`, `inst2`; `x`, `y` are the root's argument values (`*a`, `*b`) and
`a1 b1` / `a2 b2` the children's argument values, exactly the data behind
the source's `&mut` argument arrays. -/
def rebalance (st : ReState) (r ca cb : Nat) (op op1 op2 : BinOp)
    (x y a1 b1 a2 b2 : Nat) : ReState :=
  let varsa1 := st.vars.getD a1 VarSet.empty
  let varsa2 := st.vars.getD a2 VarSet.empty
  let varsb1 := st.vars.getD b1 VarSet.empty
  let varsb2 := st.vars.getD b2 VarSet.empty
  if varsa1 == varsa2 && (varsa1.lt varsb1 || varsa2.lt varsb2) then
    -- swap(b1, a2): group the two little subtrees under inst1
    { pool := (st.pool.set ca (.binOp op1 a1 a2)).set cb (.binOp op2 b1 b2),
      vars := (st.vars.set x varsa1).set y (varsb1.or varsb2),
      stack := y :: x :: st.stack }
  else
    -- unbalance into a linked list
    let vars2 := varsb1.or varsb2
    let s1 := { st with
      vars := (st.vars.set x (vars2.or varsa2)).set y vars2,
      stack := y :: st.stack }
    -- swap a1/a2 if necessary so they are in ascending order
    let (a1s, a2s) := if varsa2.lt varsa1 then (a2, a1) else (a1, a2)
    -- the five-assignment rotation
    { s1 with pool := ((s1.pool.set r (.binOp op a1s x)).set
        ca (.binOp op1 a2s y)).set cb (.binOp op2 b1 b2) }

/-- `rebalance_commutative`.  `r`, `ca`, `cb` locate the three borrowed
instructions; `none` models the `unreachable!()` panic. -/
def rebalance_commutative (uses : List Nat) (st : ReState)
    (r ca cb : Nat) : Option ReState :=
  match st.pool.getD r (.constI 0) with
  | .binOp op x y =>
    if !op.is_commutative then some st
    else
      match (st.pool.getD ca (.constI 0)).is_binop op with
      | some (a1, b1) =>
        match (st.pool.getD cb (.constI 0)).is_binop op with
        | some (a2, b2) =>
          if uses.getD x 0 < 2 && uses.getD y 0 < 2 then
            some (rebalance st r ca cb op op op x y a1 b1 a2 b2)
          else some st
        | none =>
          -- inst1 matched but inst2 did not: swap the root's arguments
          some { st with pool := st.pool.set r (.binOp op y x) }
      | none => some st
  | _ => none

/-- `add_or_sub` (local helper of `rebalance_add_or_sub`). -/
def add_or_sub : Inst → Option (Bool × Nat × Nat)
  | .binOp .Add a b => some (true, a, b)
  | .binOp .Sub a b => some (false, a, b)
  | _ => none

/-- `rebalance_add_or_sub`.  Returns the state unchanged where the source
returns `None`. -/
def rebalance_add_or_sub (uses : List Nat) (st : ReState)
    (r ca cb : Nat) : ReState :=
  match add_or_sub (st.pool.getD ca (.constI 0)) with
  | none => st
  | some (sign1, w, x) =>
    match add_or_sub (st.pool.getD cb (.constI 0)) with
    | none => st
    | some (sign2, y0, z0) =>
      -- if both subterms are addition, use the general case
      if sign1 && sign2 then st
      else
        match add_or_sub (st.pool.getD r (.constI 0)) with
        | none => st
        | some (sign, ra, rb) =>
          -- a subtraction subterm with other uses cannot be rewritten
          if !sign1 && 1 < uses.getD ra 0 then st
          else if !sign2 && 1 < uses.getD rb 0 then st
          else if sign2 then
            -- inst1 is the subtraction (sign1 is false here)
            let (args, args1) :=
              if sign then ((ra, x), (w, rb)) else ((w, ra), (x, rb))
            { pool := (st.pool.set ca (.binOp .Add args1.1 args1.2)).set
                r (.binOp .Sub args.1 args.2),
              vars := st.vars,
              stack := ra :: st.stack }
          else
            -- a - (y - z) = a + (z - y)
            let (y, z) := if !sign then (z0, y0) else (y0, z0)
            if sign1 then
              { pool := (st.pool.set cb (.binOp .Add ra y)).set
                  r (.binOp .Sub rb z),
                vars := st.vars,
                stack := rb :: st.stack }
            else
              { pool := ((st.pool.set ca (.binOp .Add w y)).set
                  cb (.binOp .Add x z)).set r (.binOp .Sub ra rb),
                vars := st.vars,
                stack := rb :: ra :: st.stack }

/-- `simplify`.  `none` models the `get_disjoint_mut(..).unwrap()` panics.
`vars` is parallel to `pool` in every state the pass runs on, so the
`vars[r]` read inside `negate` is a `getD`. -/
def simplify (op : BinOp) (r a b : Nat) (uses : List Nat)
    (st : ReState) : Option ReState :=
  if r = a ∨ r = b ∨ a = b then none
  else
    match st.pool[a]?, st.pool[b]? with
    | some ia, some ib =>
      if st.pool.length ≤ r then none
      else
        let reuse_a := uses.getD a 0 < 2
        let reuse_b := uses.getD b 0 < 2
        let replace := fun (op' : BinOp) (p q : Nat) =>
          some ({ st with pool := st.pool.set r (.binOp op' p q) }, r, p, q)
        let negate := fun (op' : BinOp) (arg p q : Nat) =>
          some ({ st with
              pool := (st.pool.set arg (.binOp op' p q)).set
                r (.unOp .Neg arg),
              vars := st.vars.set arg (st.vars.getD r VarSet.empty) },
            arg, p, q)
        let step : Option (ReState × Nat × Nat × Nat) :=
          match op, ia.is_unop .Neg, ib.is_unop .Neg with
          | .Add, some na, none => replace .Sub b na
          | .Add, none, some nb => replace .Sub a nb
          | .Add, some na, some nb =>
            if reuse_a then negate .Add a na nb
            else if reuse_b then negate .Add b na nb
            else none
          | .Sub, some na, none =>
            if reuse_a then negate .Add a na b else none
          | .Sub, none, some nb => replace .Add a nb
          | .Sub, some na, some nb => replace .Sub nb na
          | .Mul, some na, none =>
            if reuse_a then negate .Mul a na b else none
          | .Mul, none, some nb =>
            if reuse_b then negate .Mul b a nb else none
          | .Mul, some na, some nb => replace .Mul na nb
          | .Min, some na, some nb =>
            if reuse_a then negate .Max a na nb
            else if reuse_b then negate .Max b na nb
            else none
          | .Max, some na, some nb =>
            if reuse_a then negate .Min a na nb
            else if reuse_b then negate .Min b na nb
            else none
          | _, _, _ => none
        match step with
        | some (st1, r2, p, q) =>
          -- re-borrow the subtree at the rewritten indexes
          if r2 = p ∨ r2 = q ∨ p = q then none
          else if st1.pool.length ≤ r2 ∨ st1.pool.length ≤ p ∨
              st1.pool.length ≤ q then none
          else
            rebalance_commutative uses
              (rebalance_add_or_sub uses st1 r2 p q) r2 p q
        | none =>
          rebalance_commutative uses
            (rebalance_add_or_sub uses st r a b) r a b
    | _, _ => none

/-- The body of the worklist loop of `reassociate` for one popped root. -/
def processRoot (uses : List Nat) (st : ReState) (root : Nat) :
    Option ReState :=
  match st.pool[root]? with
  | none => none
  | some (.binOp op a b) =>
    if a = b then some st
    else
      match st.vars[a]?, st.vars[b]? with
      | some va, some vb =>
        match compare va.mask vb.mask with
        | .eq => simplify op root a b uses st
        | .gt =>
          if op.is_commutative then
            some { st with pool := st.pool.set root (.binOp op b a) }
          else some st
        | .lt => some st
      | _, _ => none
  | some _ => some st

/-- The inner `while let Some(root) = stack.pop()` loop, with fuel. -/
def runStack (uses : List Nat) : Nat → ReState → Option ReState
  | 0, _ => none
  | fuel + 1, st =>
    match st.stack with
    | [] => some st
    | root :: rest =>
      match processRoot uses { st with stack := rest } root with
      | none => none
      | some st' => runStack uses fuel st'

/-- `reassociate`.  `fuel` bounds each worklist drain (the source's loop has
no such bound; every theorem below evaluates on inputs whose drains finish
well inside the fuel given). -/
def reassociate (fuel : Nat) (insts : Insts) : Option Insts :=
  if insts.pool.length ≤ 65534 then
    let uses := computeUses insts.pool
    match (List.range insts.pool.length).foldlM
        (fun st idx => runStack uses fuel { st with stack := idx :: st.stack })
        (⟨insts.pool, insts.vars, []⟩ : ReState) with
    | none => none
    | some stF => some { insts with pool := stF.pool, vars := stF.vars }
  else none

def c3Program : List Inst :=
  [.varI .X, .unOp .Square 0, .unOp .Sqrt 0, .unOp .Square 1,
   .binOp .Add 0 1, .binOp .Add 2 3, .binOp .Add 4 5]

def c7Program : List Inst :=
  [.varI .X, .varI .Y, .binOp .Add 0 1, .unOp .Square 0, .binOp .Add 1 3,
   .binOp .Add 2 4, .unOp .Sqrt 0, .binOp .Add 1 6, .binOp .Add 5 7,
   .binOp .Min 4 8]

/-- The pool the parser builds from `c3Program`. -/
def c3Insts : Insts :=
  { pool := c3Program,
    vars := List.replicate 7 ⟨1⟩,
    gvn := (c3Program.enum.map (fun p => (p.2, p.1))) }

/-- The pool after `reassociate` on `c3Insts`. -/
def c3Out : Insts :=
  { pool := [.varI .X, .unOp .Square 0, .unOp .Sqrt 0, .unOp .Square 1,
      .binOp .Add 2 5, .binOp .Add 1 3, .binOp .Add 0 4],
    vars := List.replicate 7 ⟨1⟩,
    gvn := c3Insts.gvn }

/-- C3: the pool invariant holds after construction by push, but
reassociate does not preserve it: on this seven-instruction pool the
unbalancing branch of rebalance writes instruction index 5 into the
arguments of instruction 4, so an argument index is no longer strictly
below the instruction holding it. -/
theorem reassociate_breaks_pool_invariant :
    Insts.empty.pushAll c3Program = some c3Insts ∧
    c3Insts.wf = true ∧
    reassociate 100 c3Insts = some c3Out ∧
    c3Out.pool[4]? = some (.binOp .Add 2 5) ∧
    c3Out.instOk 4 = false :=
  ⟨by decide, by decide, by decide, by decide, by decide⟩

/-- The invariant the spec (and the header comment of `reassociate`) claims
for the output pool: every commutative BinOp `r` with operands `a`, `b` has
`vars(a) < vars(b)`, or equal vars and either a different outer operator on
`a` or more than one use of `a` or `b`. -/
def reassocInvariantAt (s : Insts) (uses : List Nat) (r : Nat) : Bool :=
  match s.pool.getD r (.constI 0) with
  | .binOp op a b =>
    !op.is_commutative ||
    (s.vars.getD a VarSet.empty).lt (s.vars.getD b VarSet.empty) ||
    (s.vars.getD a VarSet.empty == s.vars.getD b VarSet.empty &&
      (((s.pool.getD a (.constI 0)).is_binop op).isNone ||
       1 < uses.getD a 0 || 1 < uses.getD b 0))
  | _ => true

/-- The pool the parser builds from `c7Program`. -/
def c7Insts : Insts :=
  { pool := c7Program,
    vars := [⟨1⟩, ⟨2⟩, ⟨3⟩, ⟨1⟩, ⟨3⟩, ⟨3⟩, ⟨1⟩, ⟨3⟩, ⟨3⟩, ⟨3⟩],
    gvn := (c7Program.enum.map (fun p => (p.2, p.1))) }

/-- The pool after `reassociate` on `c7Insts`. -/
def c7Out : Insts :=
  { pool := [.varI .X, .varI .Y, .binOp .Add 0 1, .unOp .Square 0,
      .binOp .Add 3 1, .binOp .Add 2 7, .unOp .Sqrt 0, .binOp .Add 1 4,
      .binOp .Add 6 5, .binOp .Min 4 8],
    vars := [⟨1⟩, ⟨2⟩, ⟨3⟩, ⟨1⟩, ⟨3⟩, ⟨3⟩, ⟨1⟩, ⟨3⟩, ⟨3⟩, ⟨3⟩],
    gvn := c7Insts.gvn }

/-- C7: the output invariant fails: after reassociate on this pool,
instruction 5 is `Add 2 7` with `vars(2) = vars(7) = {x,y}`, instruction 2
is itself an `Add`, and both operands have exactly one use, violating every
disjunct of the claimed invariant.  The unbalancing branch of rebalance
writes this shape and never revisits it. -/
theorem reassociate_output_invariant_violated :
    Insts.empty.pushAll c7Program = some c7Insts ∧
    c7Insts.wf = true ∧
    reassociate 100 c7Insts = some c7Out ∧
    c7Out.pool[5]? = some (.binOp .Add 2 7) ∧
    reassocInvariantAt c7Out (computeUses c7Insts.pool) 5 = false :=
  ⟨by decide, by decide, by decide, by decide, by decide⟩


/-! ### Reverse linear-scan register allocation (`src/codegen/regalloc.rs`)

The `regalloc.rs` snapshot takes a `Config` in `Registers::new`, but the
`src/codegen/x86.rs` snapshot calls it without one and implements
`Target::patch_sunk_load` without the spill operand; the embedding follows
the x86 call sites, at the default configuration (`SinkLoads::SpillAny`),
with the repository's only `Target` instance (`X86Target`) inlined for the
target type parameter. -/

/-- `RegisterState`. -/
inductive RegisterState where
  | Unallocated
  | Reg (r : Register)
  | SunkLoad (pool_idx : Nat)
deriving DecidableEq, Repr

/-- `Allocation`. -/
structure Allocation where
  reg : RegisterState
  mem : Option MemorySpace
  loc : Nat
deriving DecidableEq, Repr

/-- `Default for Allocation`. -/
def Allocation.defaultAlloc : Allocation := ⟨.Unallocated, none, 0⟩

/-- `Allocation::initial_location` (`none` models the assert that the
allocation is still in its default state). -/
def Allocation.initial_location (a : Allocation) (mem : MemorySpace)
    (loc : Nat) : Option Allocation :=
  if a = Allocation.defaultAlloc then
    some ⟨.Unallocated, some mem, loc⟩
  else none

/-- `Lru::pop_first_in`, with fuel for the loop (`none` also models the
`unreachable!()` on wrapping around without a match). -/
def Lru.pop_first_in_go (s : Lru) (free_regs : Nat) :
    Nat → Nat → Option (Nat × Lru)
  | 0, _ => none
  | fuel + 1, i =>
    let i' := (s.nodeAt i).prev
    if free_regs &&& (1 <<< i') ≠ 0 then some (i', s.mark_used i')
    else if i' = s.head then none
    else s.pop_first_in_go free_regs fuel i'

/-- `Lru::pop_first_in` from the head. -/
def Lru.pop_first_in (s : Lru) (free_regs : Nat) : Option (Nat × Lru) :=
  s.pop_first_in_go free_regs (s.data.length + 1) s.head

/-- `Registers` (target type fixed to `X86Target`). -/
structure Registers where
  allocs : List Allocation
  recent : Lru
  live : List (Option Nat)
  dirty_pool : DirtyPool
  stack_slots : Nat
  free_slots : List (Nat × MemorySpace × Nat)
  free_generation : Nat
  target : X86Target
deriving DecidableEq, Repr

/-- `Registers::new` (as called from `src/codegen/x86.rs`). -/
def Registers.new (allocs : List Allocation) (regs : Nat)
    (target : X86Target) : Registers :=
  ⟨allocs, Lru.new regs, List.replicate regs none, DirtyPool.new regs,
   0, [], 0, target⟩

/-- `Vec::swap_remove` on the free-slot list. -/
def swapRemove (l : List (Nat × MemorySpace × Nat)) (pos : Nat) :
    List (Nat × MemorySpace × Nat) :=
  (l.set pos (l.getLastD (0, MemorySpace.STACK, 0))).dropLast

/-- `Iterator::rposition` over the free-slot list (index of the last slot
whose generation is below the bound). -/
def rpositionFresh (l : List (Nat × MemorySpace × Nat)) (fg : Nat) :
    Option Nat :=
  ((l.enum.reverse).find? (fun p => p.2.1 < fg)).map (fun p => p.1)

/-- `Registers::clobber`: record that `reg` now holds `idx` and spill the
value the register held before, if any; returns the spilled value's new
memory home as the source does.  `none` models the index panics. -/
def Registers.clobber (s : Registers) (idx : Nat) (reg : Register)
    (free_generation : Nat) :
    Option (Registers × Option (MemorySpace × Nat)) :=
  match s.allocs[idx]? with
  | none => none
  | some aIdx =>
    let s1 := { s with
      allocs := s.allocs.set idx { aIdx with reg := .Reg reg },
      dirty_pool := s.dirty_pool.mark_dirty reg.index }
    match s1.live[reg.index]? with
    | none => none
    | some oldLive =>
      let s2 := { s1 with live := s1.live.set reg.index (some idx) }
      match oldLive with
      | none => some (s2, none)
      | some live =>
        match s2.allocs[live]? with
        | none => none
        | some alloc =>
          match alloc.mem with
          | some mem =>
            some ({ s2 with allocs := (s2.allocs.set live
                  ⟨.Unallocated, some mem, alloc.loc⟩) },
              some (mem, alloc.loc))
          | none =>
            match rpositionFresh s2.free_slots free_generation with
            | some pos =>
              let (_, mem, loc) :=
                s2.free_slots.getD pos (0, MemorySpace.STACK, 0)
              some ({ s2 with
                  free_slots := swapRemove s2.free_slots pos,
                  allocs := (s2.allocs.set live
                    ⟨.Unallocated, some mem, loc⟩) },
                some (mem, loc))
            | none =>
              let new_slot := s2.stack_slots
              some ({ s2 with
                  stack_slots := s2.stack_slots + 1,
                  allocs := (s2.allocs.set live
                    ⟨.Unallocated, some MemorySpace.STACK, new_slot⟩) },
                some (MemorySpace.STACK, new_slot))

/-- `Registers::free_reg`. -/
def Registers.free_reg (s : Registers) (reg : Register) : Registers :=
  { s with recent := s.recent.mark_unused reg.index,
           live := s.live.set reg.index none }

/-- `Registers::float_load` (at `SinkLoads::SpillAny`: no dead-register
filtering).  Returns the possibly mutated state and the register, `none`
modelling the panics. -/
def Registers.float_load (s : Registers) (idx : Nat) :
    Option (Registers × Option Register) :=
  match s.allocs[idx]? with
  | none => none
  | some alloc =>
    match alloc.reg with
    | .Unallocated => some (s, none)
    | .Reg r => some (s, some r)
    | .SunkLoad pool_idx =>
      match s.dirty_pool.get_clean_regs pool_idx idx with
      | (clean_regs, free_generation, patch_at) =>
        if clean_regs = 0 then
          some ({ s with allocs := (s.allocs.set idx
              { alloc with reg := .Unallocated }) }, none)
        else
          match s.recent.pop_first_in clean_regs with
          | none => none
          | some (clean_reg, rec') =>
            match ({ s with recent := rec' } : Registers).clobber idx
                ⟨clean_reg⟩ free_generation with
            | none => none
            | some (s2, _other) =>
              match s2.target.patch_sunk_load patch_at ⟨clean_reg⟩ with
              | none => none
              | some tgt =>
                some ({ s2 with target := tgt }, some ⟨clean_reg⟩)

/-- `Registers::get_reg`. -/
def Registers.get_reg (s : Registers) (idx : Nat) :
    Option (Registers × Register) :=
  match s.float_load idx with
  | none => none
  | some (s1, some reg) =>
    some ({ s1 with recent := s1.recent.mark_used reg.index,
                    dirty_pool := s1.dirty_pool.mark_dirty reg.index }, reg)
  | some (s1, none) =>
    match s1.recent.pop with
    | (r, rec') =>
      match ({ s1 with recent := rec' } : Registers).clobber idx ⟨r⟩
          s1.free_generation with
      | none => none
      | some (s2, some (mem, loc)) =>
        some ({ s2 with target := s2.target.emit_load ⟨r⟩ mem loc }, ⟨r⟩)
      | some (s2, none) => some (s2, ⟨r⟩)

/-- `Registers::get_output_reg`. -/
def Registers.get_output_reg (s : Registers) (idx : Nat) :
    Option (Registers × Register) :=
  match s.get_reg idx with
  | none => none
  | some (s1, reg) =>
    let s2 := s1.free_reg reg
    match s2.allocs[idx]? with
    | none => none
    | some alloc =>
      match alloc.mem with
      | some mem =>
        some ({ s2 with
            target := s2.target.emit_store reg mem alloc.loc,
            free_slots := s2.free_slots ++
              [(s2.free_generation, mem, alloc.loc)],
            free_generation := s2.free_generation + 1 }, reg)
      | none => some (s2, reg)

/-- `Registers::emit_load` (a load whose value was never claimed by a
register emits nothing). -/
def Registers.emit_load (s : Registers) (idx : Nat) (mem : MemorySpace)
    (loc : Nat) : Option Registers :=
  match s.allocs[idx]? with
  | none => none
  | some alloc =>
    match alloc.reg with
    | .Reg reg =>
      some (({ s with dirty_pool := s.dirty_pool.mark_dirty reg.index,
                      target := s.target.emit_load reg mem loc
             } : Registers).free_reg reg)
    | _ => some s

/-- `Registers::address_of` (outer `none` is the index panic, the inner
option is the source's return value). -/
def Registers.address_of (s : Registers) (idx : Nat) :
    Option (Option (MemorySpace × Nat)) :=
  match s.allocs[idx]? with
  | none => none
  | some a => some (a.mem.map (fun m => (m, a.loc)))

/-- `Registers::sink_load` at `SinkLoads::SpillAny`: float the load if a
clean register exists, else queue it in the dirty pool. -/
def Registers.sink_load (s : Registers) (idx : Nat) (patch_at : Nat) :
    Option (Registers × Bool) :=
  match s.float_load idx with
  | none => none
  | some (s1, some _) => some (s1, false)
  | some (s1, none) =>
    match s1.allocs[idx]? with
    | none => none
    | some alloc =>
      match s1.dirty_pool.push_load idx patch_at s1.free_generation with
      | (pool_idx, dp) =>
        some ({ s1 with dirty_pool := dp,
                        allocs := (s1.allocs.set idx
                          { alloc with reg := .SunkLoad pool_idx }) }, true)

/-- `Registers::finish`. -/
def Registers.finish (s : Registers) : X86Target × Nat :=
  (s.target, s.stack_slots)

/-! ### The x86 emitter (`src/codegen/x86.rs`) -/

/-- Append one instruction to the target (`regs.target.insts.push`). -/
def Registers.pushInst (s : Registers) (i : X86Inst) : Registers :=
  { s with target := { s.target with insts := s.target.insts ++ [i] } }

/-- The free function `sink_load` of `src/codegen/x86.rs`: use a memory
operand for a vector-space argument when the load can be sunk, else a
register. -/
def sink_load (s : Registers) (arg : Nat) : Option (Registers × XmmMem) :=
  let viaReg := fun (s' : Registers) =>
    match s'.get_reg arg with
    | none => none
    | some (s2, r) => some (s2, XmmMem.xmm r)
  match s.address_of arg with
  | none => none
  | some (some (mem, loc)) =>
    if s.target.vectors &&& (1 <<< mem.idx) ≠ 0 then
      match s.sink_load arg s.target.insts.length with
      | none => none
      | some (s1, true) => some (s1, .mem ⟨mem, loc, s1.target.stride⟩)
      | some (s1, false) => viaReg s1
    else viaReg s
  | some none => viaReg s

/-- One reverse-iteration step of the `emit` loop of `src/codegen/x86.rs`
(`none` models the `unimplemented!()` on `Const`/`Var` and the panics of the
allocator calls). -/
def emitStep (neg_alloc : Nat) (s : Registers) (idx : Nat) (inst : Inst) :
    Option Registers :=
  match inst with
  | .constI _ => none
  | .varI _ => none
  | .unOp op arg =>
    match s.get_output_reg idx with
    | none => none
    | some (s1, dst) =>
      match op with
      | .Neg =>
        match sink_load s1 neg_alloc with
        | none => none
        | some (s2, sign) =>
          match s2.get_reg arg with
          | none => none
          | some (s3, argR) =>
            some (s3.pushInst (.XmmRmR .Vxorps argR sign dst))
      | .Square =>
        match s1.get_reg arg with
        | none => none
        | some (s2, argR) =>
          some (s2.pushInst (.XmmRmR .Vmulps argR (.xmm argR) dst))
      | .Sqrt =>
        match sink_load s1 arg with
        | none => none
        | some (s2, argM) =>
          some (s2.pushInst (.XmmUnaryRmRVex .Vsqrtps argM dst))
  | .binOp op a b =>
    match s.get_output_reg idx with
    | none => none
    | some (s1, dst) =>
      match sink_load s1 b with
      | none => none
      | some (s2, src2) =>
        match s2.get_reg a with
        | none => none
        | some (s3, src1) =>
          let opc := match op with
            | .Add => XmmRmROpcode.Vaddps
            | .Sub => XmmRmROpcode.Vsubps
            | .Mul => XmmRmROpcode.Vmulps
            | .Min => XmmRmROpcode.Vminps
            | .Max => XmmRmROpcode.Vmaxps
          some (s3.pushInst (.XmmRmR opc src1 src2 dst))
  | .load vars loc => s.emit_load idx (MemorySpace.ofVarSet vars) loc

/-- The reverse loop of `emit` over the enumerated instructions. -/
def emitGo (neg_alloc : Nat) : List (Nat × Inst) → Registers →
    Option Registers
  | [], s => some s
  | (idx, inst) :: rest, s =>
    match emitStep neg_alloc s idx inst with
    | none => none
    | some s' => emitGo neg_alloc rest s'

/-- `emit` of `src/codegen/x86.rs`: build the allocations (loads and
outputs get their initial locations, plus the sign-bit constant's
allocation), run the reverse emission loop, then give the sign constant's
pending load a chance to emit. -/
def emit (neg_const : Nat) (func : MemoizedFunc) (vectors : List VarSet) :
    Option (X86Target × Nat) :=
  let allocs0 := func.insts.map (fun inst =>
    match inst with
    | .load vars loc => (⟨.Unallocated, some (MemorySpace.ofVarSet vars),
        loc⟩ : Allocation)
    | _ => Allocation.defaultAlloc)
  match func.outputs.enum.foldlM
      (fun (al : List Allocation) (p : Nat × Option Nat) =>
        match p.2 with
        | none => some al
        | some idx =>
          match al[idx]? with
          | none => none
          | some a =>
            match a.initial_location (MemorySpace.ofVarSet func.vars) p.1 with
            | none => none
            | some a' => some (al.set idx a')) allocs0 with
  | none => none
  | some allocs1 =>
    let neg_alloc := allocs1.length
    let allocs := allocs1 ++
      [⟨.Unallocated, some MemorySpace.consts, neg_const⟩]
    let regs0 := Registers.new allocs 16 (X86Target.new vectors)
    match emitGo neg_alloc (func.insts.enum.reverse) regs0 with
    | none => none
    | some s1 =>
      match s1.emit_load neg_alloc MemorySpace.consts neg_const with
      | none => none
      | some s2 => some s2.finish

/-- The `.long` lines `write` appends after the consts table (the sign-bit
constant used by `neg`), formatted as the source's `{:#08x}`. -/
def negConstLines : List String :=
  List.replicate STRIDE (".long " ++ hexString (1 <<< 31))

def c5Func : MemoizedFunc :=
  { vars := ⟨1⟩, insts := [.load ⟨1⟩ 0, .unOp .Neg 0], outputs := [some 1] }

/-- C5, counterexample: emitting the `{x}` function `[load {x} 0, neg 0]`.
`Neg` comes out as `vxorps` against the sign-bit constant in the consts
space (no `vsubps` is emitted at all), the destination register handed out
by the allocator is `%xmm15` (the very first `Lru::new(16).pop()`), and the
only zero-free constant material is the `0x80000000` block `write` appends
after the consts table — no broadcast zero exists. -/
theorem x86_neg_not_vsubps :
    emit 0 c5Func [c5Func.vars, VarSet.ofVar .X] =
      some (⟨7, 4,
        [.XmmMovRMVex .Vmovaps ⟨15⟩ (.mem ⟨⟨3⟩, 0, 4⟩),
         .XmmRmR .Vxorps ⟨15⟩ (.mem ⟨⟨2⟩, 0, 4⟩) ⟨15⟩,
         .XmmUnaryRmRVex .Vmovaps (.mem ⟨⟨3⟩, 0, 4⟩) ⟨15⟩]⟩, 0) ∧
    ((emit 0 c5Func [c5Func.vars, VarSet.ofVar .X]).map
      (fun r => r.1.insts.countP (fun i =>
        match i with
        | .XmmRmR .Vsubps _ _ _ => true
        | _ => false)) = some 0) ∧
    ((Lru.new 16).pop).1 = 15 ∧
    MemorySpace.consts = ⟨2⟩ ∧
    negConstLines = List.replicate 4 ".long 0x80000000" :=
  ⟨by decide, by decide, by decide, rfl, by decide⟩

/-- C5, amended: for every one-`Neg` function (any of the seven VarSet
spaces), the emitter synthesizes `Neg` as a `vxorps` of the argument with
the sign-bit constant held in the consts space; the output register is
`%xmm15`, which is handed out for general allocation (all sixteen registers
are in the LRU; nothing is reserved and no broadcast zero is created). -/
theorem x86_neg_emits_vxorps (fvm : Nat) (h1 : 1 ≤ fvm) (h2 : fvm < 8) :
    emit 0 ⟨⟨fvm⟩, [.load ⟨fvm⟩ 0, .unOp .Neg 0], [some 1]⟩
        [⟨fvm⟩, VarSet.ofVar .X] =
      some (⟨(X86Target.new [⟨fvm⟩, VarSet.ofVar .X]).vectors, 4,
        [.XmmMovRMVex .Vmovaps ⟨15⟩ (.mem ⟨⟨fvm + 2⟩, 0, 4⟩),
         .XmmRmR .Vxorps ⟨15⟩ (.mem ⟨MemorySpace.consts, 0, 4⟩) ⟨15⟩,
         .XmmUnaryRmRVex .Vmovaps (.mem ⟨⟨fvm + 2⟩, 0, 4⟩) ⟨15⟩]⟩, 0) := by
  interval_cases fvm <;> decide

/-- Witness for `x86_neg_emits_vxorps` at the `{y}` space. -/
theorem x86_neg_emits_vxorps_witness :
    (1 ≤ 2 ∧ 2 < 8) ∧
    emit 0 ⟨⟨2⟩, [.load ⟨2⟩ 0, .unOp .Neg 0], [some 1]⟩
        [⟨2⟩, VarSet.ofVar .X] =
      some (⟨(X86Target.new [⟨2⟩, VarSet.ofVar .X]).vectors, 4,
        [.XmmMovRMVex .Vmovaps ⟨15⟩ (.mem ⟨⟨4⟩, 0, 4⟩),
         .XmmRmR .Vxorps ⟨15⟩ (.mem ⟨MemorySpace.consts, 0, 4⟩) ⟨15⟩,
         .XmmUnaryRmRVex .Vmovaps (.mem ⟨⟨4⟩, 0, 4⟩) ⟨15⟩]⟩, 0) :=
  ⟨⟨by decide, by decide⟩, x86_neg_emits_vxorps 2 (by decide) (by decide)⟩

end Prospero
